import Mathlib

/-!
Verification of the iPhone pickup-availability Cloudflare Worker
(`src/worker.js`) against its natural-language specification.

The worker is shallowly embedded: pure data transformations become Lean
functions, the platform services (upstream HTTP fetches, the `AVAIL_KV`
durable store, the `caches.default` edge cache, the wall clock, and
`ctx.waitUntil` background tasks) become explicit parameters/state, and
JavaScript quirks that the code relies on (string/number truthiness,
`URLSearchParams.get` returning the first value, `JSON.stringify`
omitting `undefined` object fields, NaN-propagating comparisons in the
store-hours logic) are modelled explicitly.  JavaScript numbers that the
worker ever serializes are integers in practice and are modelled as `Int`.
-/

namespace Worker

/-! ## JavaScript string/number helpers

Truthiness: an `Option String` field is truthy when present and non-empty;
an `Option Int` is truthy when present and non-zero; `a || b` picks `a`
when truthy, else `b`. -/

/-- Truthiness of a possibly-absent JS string (`undefined` and `""` are falsy). -/
def truthyS : Option String → Bool
  | none => false
  | some s => s ≠ ""

/-- Truthiness of a possibly-absent JS number (`undefined` and `0` are falsy). -/
def truthyN : Option Int → Bool
  | none => false
  | some n => n ≠ 0

/-- JS `a || b` on possibly-absent strings. -/
def jsOrS (a b : Option String) : Option String :=
  if truthyS a then a else b

/-- JS `a || b` on possibly-absent numbers. -/
def jsOrN (a b : Option Int) : Option Int :=
  if truthyN a then a else b

/-- JS template-literal rendering of a possibly-absent string
(`undefined` interpolates as the text "undefined"). -/
def tmplS : Option String → String
  | none => "undefined"
  | some s => s

/-! ## JSON values and `JSON.stringify`

`Json` models the JavaScript values the worker serializes (numbers as
`Int`: the worker only ever stores integral prices).  `jsonStringify`
models `JSON.stringify` with no spacing, insertion-ordered object keys,
and the standard escape rules. -/

/-- A JSON value.  Object fields are insertion-ordered, as in JS. -/
inductive Json where
  | null
  | bool (b : Bool)
  | num (n : Int)
  | str (s : String)
  | arr (items : List Json)
  | obj (fields : List (String × Json))

/-- The decimal digit character for `k < 10`. -/
def decDigit (k : Nat) : Char := Char.ofNat (48 + k)

/-- Lowercase hex digit (as `JSON.stringify` emits in `\u00xx` escapes). -/
def lhexDigit (k : Nat) : Char :=
  if k < 10 then Char.ofNat (48 + k) else Char.ofNat (87 + k)

/-- Decimal digits of `n`, most significant first. -/
def natChars (n : Nat) : List Char :=
  if n < 10 then [decDigit n] else natChars (n / 10) ++ [decDigit (n % 10)]
termination_by n
decreasing_by exact Nat.div_lt_self (by omega) (by omega)

/-- Characters of an integer: optional sign, then decimal digits. -/
def intChars (n : Int) : List Char :=
  (if n < 0 then ['-'] else []) ++ natChars n.natAbs

/-- One string character, escaped as `JSON.stringify` does: `"` and `\`
get a backslash, the five named control escapes are used where they
exist, other control characters become `\u00xx`, everything else is
emitted raw. -/
def escChar (c : Char) : List Char :=
  if c = '"' then ['\\', '"']
  else if c = '\\' then ['\\', '\\']
  else if c = '\n' then ['\\', 'n']
  else if c = '\r' then ['\\', 'r']
  else if c = '\t' then ['\\', 't']
  else if c.toNat = 8 then ['\\', 'b']
  else if c.toNat = 12 then ['\\', 'f']
  else if c.toNat < 32 then
    ['\\', 'u', '0', '0', lhexDigit (c.toNat / 16), lhexDigit (c.toNat % 16)]
  else [c]

/-- The serialized form of a string: quote, escaped body, quote. -/
def strChars (s : String) : List Char :=
  '"' :: (s.data.flatMap escChar ++ ['"'])

mutual

/-- `JSON.stringify`, producing a character list. -/
def jsonChars : Json → List Char
  | .null => "null".data
  | .bool true => "true".data
  | .bool false => "false".data
  | .num n => intChars n
  | .str s => strChars s
  | .arr [] => ['[', ']']
  | .arr (x :: xs) => '[' :: (itemChars x xs ++ [']'])
  | .obj [] => ['{', '}']
  | .obj (f :: fs) => '{' :: (fieldChars f fs ++ ['}'])
termination_by j => sizeOf j
decreasing_by all_goals (first | (simp; omega) | simp | omega)

/-- Comma-separated serialization of a non-empty item list. -/
def itemChars : Json → List Json → List Char
  | x, [] => jsonChars x
  | x, y :: ys => jsonChars x ++ ',' :: itemChars y ys
termination_by x xs => sizeOf x + sizeOf xs
decreasing_by all_goals (first | (simp; omega) | simp | omega)

/-- Comma-separated serialization of a non-empty field list. -/
def fieldChars : String × Json → List (String × Json) → List Char
  | (k, v), [] => strChars k ++ ':' :: jsonChars v
  | (k, v), f :: fs => (strChars k ++ ':' :: jsonChars v) ++ ',' :: fieldChars f fs
termination_by f fs => sizeOf f + sizeOf fs
decreasing_by all_goals (first | (simp; omega) | simp | omega)

end

/-- `JSON.stringify` as a `String`-valued function. -/
def jsonStringify (j : Json) : String := String.mk (jsonChars j)

/-! ## `JSON.parse`

A recursive-descent parser over the character list, total via a fuel
argument.  The worker only ever parses its own `JSON.stringify` output
(which contains no whitespace), so the grammar accepted here is the
spacing-free one `JSON.stringify` emits; the round-trip theorem below is
the property the worker's KV layer relies on. -/

/-- Value of a hex digit character, if it is one. -/
def hexNibble (c : Char) : Option Nat :=
  if 48 ≤ c.toNat ∧ c.toNat ≤ 57 then some (c.toNat - 48)
  else if 97 ≤ c.toNat ∧ c.toNat ≤ 102 then some (c.toNat - 87)
  else if 65 ≤ c.toNat ∧ c.toNat ≤ 70 then some (c.toNat - 55)
  else none

/-- Decode a one-character escape (everything except `\uXXXX`). -/
def escDecode (e : Char) : Option Char :=
  if e = '"' then some '"'
  else if e = '\\' then some '\\'
  else if e = '/' then some '/'
  else if e = 'n' then some '\n'
  else if e = 'r' then some '\r'
  else if e = 't' then some '\t'
  else if e = 'b' then some (Char.ofNat 8)
  else if e = 'f' then some (Char.ofNat 12)
  else none

/-- Parse a string body after the opening quote, up to and including the
closing quote; yields the decoded characters and the remainder. -/
def strBody : List Char → Option (List Char × List Char)
  | [] => none
  | c :: rest =>
    if c = '"' then some ([], rest)
    else if c = '\\' then
      match rest with
      | [] => none
      | e :: r =>
        if e = 'u' then
          match r with
          | h1 :: h2 :: h3 :: h4 :: r2 =>
            match hexNibble h1, hexNibble h2, hexNibble h3, hexNibble h4 with
            | some v1, some v2, some v3, some v4 =>
              match strBody r2 with
              | some (body, rem) =>
                some (Char.ofNat (((v1 * 16 + v2) * 16 + v3) * 16 + v4) :: body, rem)
              | none => none
            | _, _, _, _ => none
          | _ => none
        else
          match escDecode e with
          | some ch =>
            match strBody r with
            | some (body, rem) => some (ch :: body, rem)
            | none => none
          | none => none
    else
      match strBody rest with
      | some (body, rem) => some (c :: body, rem)
      | none => none
termination_by l => l.length
decreasing_by all_goals (simp_all; try omega)

/-- Take the leading run of decimal digits. -/
def digitRun : List Char → List Char × List Char
  | [] => ([], [])
  | c :: rest =>
    if c.isDigit then (c :: (digitRun rest).1, (digitRun rest).2)
    else ([], c :: rest)

/-- Numeric value of a digit run. -/
def digitVal (ds : List Char) : Nat :=
  ds.foldl (fun a c => a * 10 + (c.toNat - 48)) 0

/-- Expect the exact characters `kw`, returning the remainder. -/
def expectChars (kw : List Char) (l : List Char) : Option (List Char) :=
  match kw, l with
  | [], _ => some l
  | _ :: _, [] => none
  | k :: ks, c :: cs => if c = k then expectChars ks cs else none

/-- After `[` or `{`: an immediate closer is the empty collection,
anything else is handed to the element parser `sub`. -/
def pClose (close : Char) (mk : List α → Json)
    (sub : List Char → Option (List α × List Char)) :
    List Char → Option (Json × List Char)
  | [] => none
  | d :: r =>
    if d = close then some (mk [], r)
    else
      match sub (d :: r) with
      | some (xs, r2) => some (mk xs, r2)
      | none => none

/-- After `-`: a digit run must follow. -/
def pNeg : List Char → Option (Json × List Char)
  | [] => none
  | d :: r =>
    if d.isDigit then
      some (.num (-(digitVal (digitRun (d :: r)).1 : Int)), (digitRun (d :: r)).2)
    else none

/-- After one array item: a comma continues with `k`, a `]` closes. -/
def pMoreItems (k : List Char → Option (List Json × List Char)) (v : Json) :
    List Char → Option (List Json × List Char)
  | [] => none
  | d :: r =>
    if d = ',' then
      match k r with
      | some (vs, r2) => some (v :: vs, r2)
      | none => none
    else if d = ']' then some ([v], r)
    else none

/-- After one object member: a comma continues with `k`, a `}` closes. -/
def pMoreFields (k : List Char → Option (List (String × Json) × List Char))
    (key : String) (v : Json) :
    List Char → Option (List (String × Json) × List Char)
  | [] => none
  | d :: r =>
    if d = ',' then
      match k r with
      | some (fs, r2) => some ((key, v) :: fs, r2)
      | none => none
    else if d = '}' then some ([(key, v)], r)
    else none

/-- After an object key: expect `:`, a value, then delegate to
`pMoreFields`. -/
def pAfterKey (pv : List Char → Option (Json × List Char))
    (k : List Char → Option (List (String × Json) × List Char)) (key : String) :
    List Char → Option (List (String × Json) × List Char)
  | [] => none
  | d :: r =>
    if d = ':' then
      match pv r with
      | some (v, r2) => pMoreFields k key v r2
      | none => none
    else none

mutual

/-- Parse one JSON value (fuel-bounded). -/
def pVal : Nat → List Char → Option (Json × List Char)
  | 0, _ => none
  | _ + 1, [] => none
  | fuel + 1, c :: rest =>
    if c = 'n' then (expectChars ['u', 'l', 'l'] rest).map (fun r => (.null, r))
    else if c = 't' then (expectChars ['r', 'u', 'e'] rest).map (fun r => (.bool true, r))
    else if c = 'f' then (expectChars ['a', 'l', 's', 'e'] rest).map (fun r => (.bool false, r))
    else if c = '"' then (strBody rest).map (fun p => (.str (String.mk p.1), p.2))
    else if c = '[' then pClose ']' Json.arr (pItems fuel) rest
    else if c = '{' then pClose '}' Json.obj (pFields fuel) rest
    else if c = '-' then pNeg rest
    else if c.isDigit then
      some (.num (digitVal (digitRun (c :: rest)).1 : Int), (digitRun (c :: rest)).2)
    else none

/-- Parse one-or-more comma-separated values and the closing `]`. -/
def pItems : Nat → List Char → Option (List Json × List Char)
  | 0, _ => none
  | fuel + 1, input =>
    match pVal fuel input with
    | some (v, r) => pMoreItems (pItems fuel) v r
    | none => none

/-- Parse one-or-more comma-separated `"key":value` pairs and the
closing `}`. -/
def pFields : Nat → List Char → Option (List (String × Json) × List Char)
  | 0, _ => none
  | _ + 1, [] => none
  | fuel + 1, c :: rest =>
    if c = '"' then
      match strBody rest with
      | some (key, r1) => pAfterKey (pVal fuel) (pFields fuel) (String.mk key) r1
      | none => none
    else none

end

/-- `JSON.parse` on the spacing-free grammar: the whole input must be
consumed. -/
def jsonParse (s : String) : Option Json :=
  match pVal (s.data.length + 1) s.data with
  | some (j, []) => some j
  | _ => none

/-- `true` when the list does not start with a decimal digit (so it cannot
extend a serialized number). -/
def noDigitHead : List Char → Bool
  | [] => true
  | c :: _ => !c.isDigit

/-! ## Configuration

`getConfig` reads env overrides with these hardcoded fallbacks; the
defaulted record carries the resolved values. -/

/-- Resolved worker configuration (defaults mirror the source constants). -/
structure Config where
  APPLE_BASE : String := "https://www.apple.com"
  REGION_PATH : String := "/tw"
  LOCATION_SEEDS : List String := ["Taiwan"]
  FAMILIES : List String := ["iphone-17", "iphone-17-pro", "iphone-air"]
deriving DecidableEq, Repr

/-! ## Part discovery (`fetchPartsFromBuyPage`, `fetchIphonePartsForFamilies`)

The network fetch of a family's buy page, the `script#metrics` regex
extraction and the `JSON.parse` of the extracted blob are external
effects; their joint outcome for a family is the oracle `BuyPageResult`.
`fetchPartsFromBuyPage` performs the worker's own steps on that outcome:
each failure mode becomes the corresponding thrown error, and a parsed
metrics payload is filtered to entries with a truthy `partNumber` and
`category === "iphone"` and mapped to `Part` records. -/

/-- One product entry of the embedded metrics payload (`data.products[]`). -/
structure RawProduct where
  name : Option String := none
  partNumber : Option String := none
  sku : Option String := none
  category : Option String := none
  priceFullPrice : Option Int := none
deriving DecidableEq, Repr

/-- Outcome of fetching and extracting one family buy page. -/
inductive BuyPageResult where
  | httpError (status : Nat)
  | noMetricsTag
  | metricsParseError
  | metrics (products : List RawProduct)
deriving DecidableEq, Repr

/-- A discovered part. -/
structure Part where
  name : String
  partNumber : String
  sku : Option String
  family : String
  price : Option Int
deriving DecidableEq, Repr

/-- The body of `fetchPartsFromBuyPage`: throw on each failure mode, else
filter and rename the product records. -/
def fetchPartsFromBuyPage (resp : BuyPageResult) (familySlug : String) :
    Except String (List Part) :=
  match resp with
  | .httpError status => .error s!"Failed to fetch buy page {familySlug}: {status}"
  | .noMetricsTag => .error s!"metrics script not found on {familySlug}"
  | .metricsParseError => .error s!"failed to parse metrics JSON for {familySlug}"
  | .metrics products =>
    .ok ((products.filter (fun p => truthyS p.partNumber && p.category == some "iphone")).map
      (fun p =>
        { name := (jsOrS (jsOrS p.name p.sku) p.partNumber).getD ""
        , partNumber := p.partNumber.getD ""
        , sku := if truthyS p.sku then p.sku else none
        , family := familySlug
        , price := p.priceFullPrice }))

/-- First-occurrence-wins deduplication by string key: the elements kept
from one list, given the set of already-seen keys (the worker's `seen`
`Set` / cache `Map` insert-if-absent pattern). -/
def firstWinsOut (key : α → String) (seen : List String) : List α → List α
  | [] => []
  | x :: rest =>
    if key x ∈ seen then firstWinsOut key seen rest
    else x :: firstWinsOut key (key x :: seen) rest

/-- The seen-key set after processing one list. -/
def firstWinsSeen (key : α → String) (seen : List String) : List α → List String
  | [] => seen
  | x :: rest =>
    if key x ∈ seen then firstWinsSeen key seen rest
    else firstWinsSeen key (key x :: seen) rest

/-- The accumulation loop of `fetchIphonePartsForFamilies`: per-family
errors are swallowed, parts are deduplicated by `partNumber` across
families, first family wins. -/
def collectParts (page : String → BuyPageResult) : List String → List String → List Part
  | [], _ => []
  | slug :: fams, seen =>
    match fetchPartsFromBuyPage (page slug) slug with
    | .error _ => collectParts page fams seen
    | .ok list =>
      firstWinsOut (fun p => p.partNumber) seen list ++
        collectParts page fams (firstWinsSeen (fun p => p.partNumber) seen list)

/-- `fetchIphonePartsForFamilies`: merge across families, throw when
nothing at all was discovered. -/
def fetchIphonePartsForFamilies (page : String → BuyPageResult) (families : List String) :
    Except String (List Part) :=
  let parts := collectParts page families []
  if parts.isEmpty then .error "no iPhone 17 family parts discovered" else .ok parts

/-- The concatenation, in family order, of all successfully fetched part
lists (duplicates included) — the stream the dedup loop consumes. -/
def discoveredParts (page : String → BuyPageResult) (families : List String) : List Part :=
  families.flatMap (fun slug =>
    match fetchPartsFromBuyPage (page slug) slug with
    | .ok l => l
    | .error _ => [])

/-! ## Stores and fulfillment -/

/-- A raw store-hours row as the upstream payload carries it (either the
`storeDays`/`storeTimings` or the `days`/`timings` spelling). -/
structure HoursRow where
  storeDays : Option String := none
  days : Option String := none
  storeTimings : Option String := none
  timings : Option String := none
deriving DecidableEq, Repr

/-- The `retailStore` sub-object fields the worker reads. -/
structure RetailStore where
  phoneNumber : Option String := none
  addressStreet : Option String := none
  latitude : Option Int := none
  longitude : Option Int := none
  storeHours : Option (List HoursRow) := none
deriving DecidableEq, Repr

/-- The `address` sub-object fields the worker reads. -/
structure RawAddress where
  address2 : Option String := none
  address3 : Option String := none
deriving DecidableEq, Repr

/-- Shape of `s.storeHours`: absent, an object (whose `hours` may or may
not be an array), or itself an array. -/
inductive StoreHoursVal where
  | missing
  | object (hours : Option (List HoursRow))
  | array (rows : List HoursRow)
deriving DecidableEq, Repr

/-- One `partsAvailability` entry (the fields the worker reads,
optional-chained paths collapsed). -/
structure PartAvail where
  pickupDisplay : Option String := none
  buyableFlag : Option Bool := none
  pickupType : Option String := none
  pickupSearchQuote : Option String := none
  regularStorePickupQuote : Option String := none
deriving DecidableEq, Repr

/-- A raw store record from the fulfillment response. -/
structure RawStore where
  storeNumber : Option String := none
  storeName : Option String := none
  city : Option String := none
  country : Option String := none
  phoneNumber : Option String := none
  address : Option RawAddress := none
  hoursUrl : Option String := none
  makeReservationUrl : Option String := none
  reservationUrl : Option String := none
  storelatitude : Option Int := none
  storelongitude : Option Int := none
  storeImageUrl : Option String := none
  storeHours : StoreHoursVal := .missing
  retailStore : Option RetailStore := none
  partsAvailability : List (String × PartAvail) := []
deriving DecidableEq, Repr

/-- The merge key of `mergeStores`: `s.storeNumber || country:city:storeName`
(JS template literals print absent fields as "undefined"). -/
def storeMergeKey (s : RawStore) : String :=
  if truthyS s.storeNumber then s.storeNumber.getD ""
  else tmplS s.country ++ ":" ++ tmplS s.city ++ ":" ++ tmplS s.storeName

/-- The nested loop of `mergeStores` over the per-seed store lists,
inserting each store into the map only when its key is unseen. -/
def mergeStoresAux (seen : List String) : List (List RawStore) → List RawStore
  | [] => []
  | list :: rest =>
    firstWinsOut storeMergeKey seen list ++
      mergeStoresAux (firstWinsSeen storeMergeKey seen list) rest

/-- `mergeStores`: deduplicate stores from all seeds by `storeMergeKey`,
keeping first-insertion order (JS `Map` iteration order). -/
def mergeStores (storesArr : List (List RawStore)) : List RawStore :=
  mergeStoresAux [] storesArr

/-- Outcome of one fulfillment-API fetch for a seed (network + response
JSON decoding are external; `ok` carries
`json?.body?.content?.pickupMessage?.stores || []`). -/
inductive FulfillResult where
  | httpError (status : Nat)
  | badJson
  | ok (stores : List RawStore)
deriving DecidableEq, Repr

/-- `fetchFulfillmentForSeed` on the oracle outcome: a non-success status
or an unparseable body throws; otherwise the store list is returned. -/
def fetchFulfillmentForSeed (resp : FulfillResult) (seed : String) :
    Except String (List RawStore) :=
  match resp with
  | .httpError status => .error s!"fulfillment API failed ({seed}): {status}"
  | .badJson => .error s!"failed to parse fulfillment body for {seed}"
  | .ok stores => .ok stores

/-- The seed loop of `buildAvailabilityPayload`: per-seed errors are
swallowed and only non-empty store lists are pushed. -/
def collectStoresLists (ful : List String → String → FulfillResult)
    (partNumbers : List String) : List String → List (List RawStore)
  | [] => []
  | seed :: seeds =>
    match fetchFulfillmentForSeed (ful partNumbers seed) seed with
    | .ok stores =>
      if stores.isEmpty then collectStoresLists ful partNumbers seeds
      else stores :: collectStoresLists ful partNumbers seeds
    | .error _ => collectStoresLists ful partNumbers seeds

/-! ## Store-hours parsing (`normalizeAvailability` helpers)

The helpers below embed the string processing inside
`normalizeAvailability`.  `getTaipeiNow` formats the real clock in
`Asia/Taipei` via `Intl.DateTimeFormat`; its result (a localized weekday
name and minutes past midnight) is the explicit parameter `TaipeiNow`.
JS `parseInt` can yield `NaN`, and the code's `startMin != null` check
lets `NaN` through, so parsed minute counts are `Option Int` with `none`
playing `NaN` (every JS comparison against `NaN` is false). -/

/-- The whitespace characters this embedding treats as JS `\s` (the ASCII
ones plus NBSP, the ideographic space and the BOM — the ones that occur
in the upstream data). -/
def isJsWs (c : Char) : Bool :=
  c = ' ' || c = '\t' || c = '\n' || c = '\r' || c.toNat = 11 || c.toNat = 12 ||
  c.toNat = 160 || c.toNat = 12288 || c.toNat = 65279

/-- Does `l` start with `pat`? -/
def startsList (pat l : List Char) : Bool :=
  match pat, l with
  | [], _ => true
  | p :: ps, c :: cs => p = c && startsList ps cs
  | _ :: _, [] => false

/-- JS `String.prototype.includes` for a non-empty pattern. -/
def hasSub (pat : List Char) : List Char → Bool
  | [] => startsList pat []
  | c :: cs => startsList pat (c :: cs) || hasSub pat cs

/-- JS `replace(pat, '')` with a plain-string pattern: remove the first
occurrence only. -/
def removeOnce (pat : List Char) : List Char → List Char
  | [] => []
  | c :: cs =>
    if startsList pat (c :: cs) then List.drop pat.length (c :: cs)
    else c :: removeOnce pat cs

/-- JS `replace(/am|pm/ig, '')`: remove every case-insensitive `am`/`pm`. -/
def removeAmPm : List Char → List Char
  | [] => []
  | [c] => [c]
  | c :: c2 :: cs2 =>
    if (c.toLower = 'a' || c.toLower = 'p') && c2.toLower = 'm' then removeAmPm cs2
    else c :: removeAmPm (c2 :: cs2)

/-- JS `split(sep)` for a one-character separator (never empty: splitting
the empty string yields `[[]]`). -/
def splitChar (sep : Char) : List Char → List (List Char)
  | [] => [[]]
  | c :: cs =>
    if c = sep then [] :: splitChar sep cs
    else
      match splitChar sep cs with
      | [] => [[c]]
      | t :: ts => (c :: t) :: ts

/-- JS `split(/,|，|、/)`: split on any of the separators. -/
def splitAny (seps : List Char) : List Char → List (List Char)
  | [] => [[]]
  | c :: cs =>
    if seps.contains c then [] :: splitAny seps cs
    else
      match splitAny seps cs with
      | [] => [[c]]
      | t :: ts => (c :: t) :: ts

/-- JS `trim()`. -/
def trimChars (l : List Char) : List Char :=
  ((l.dropWhile isJsWs).reverse.dropWhile isJsWs).reverse

/-- Leading decimal-digit run value, `none` when the first character is
not a digit. -/
def leadDigits (l : List Char) : Option Nat :=
  match l with
  | [] => none
  | c :: _ => if c.isDigit then some (digitVal (digitRun l).1) else none

/-- JS `parseInt(s, 10)`: skip leading whitespace, optional sign, then a
digit run; `none` is `NaN`. -/
def jsParseInt (s : String) : Option Int :=
  let l := s.data.dropWhile isJsWs
  match l with
  | '-' :: r => (leadDigits r).map (fun n => -(n : Int))
  | '+' :: r => (leadDigits r).map (fun n => (n : Int))
  | _ => (leadDigits l).map (fun n => (n : Int))

/-- JS `a < b` where either side may be `NaN`. -/
def jnLt (a b : Option Int) : Bool :=
  match a, b with
  | some x, some y => x < y
  | _, _ => false

/-- JS `a <= b` where either side may be `NaN`. -/
def jnLe (a b : Option Int) : Bool :=
  match a, b with
  | some x, some y => x ≤ y
  | _, _ => false

/-- JS `a + k` where `a` may be `NaN`. -/
def jnAdd (a : Option Int) (k : Int) : Option Int := a.map (· + k)

/-- JS `a - b` where either side may be `NaN`. -/
def jnSub (a b : Option Int) : Option Int :=
  match a, b with
  | some x, some y => some (x - y)
  | _, _ => none

/-- JS `a > k` where `a` may be `NaN`. -/
def jnGt (a : Option Int) (k : Int) : Bool :=
  match a with
  | some x => x > k
  | none => false

/-- `parseCNTimeToken`: minutes past midnight of a time token such as
`上午10:00` / `下午8:30` / `10:00 AM`.  Outer `none` is the JS `null`
return (falsy token); the inner `Option Int` is the JS number, `none`
being `NaN` (e.g. for a token with no digits, which the caller's
`!= null` check lets through). -/
def parseCNTimeToken (tok : Option String) : Option (Option Int) :=
  if truthyS tok = false then none
  else
    let t := (tok.getD "").data.filter (fun c => !isJsWs c)
    let lower := t.map Char.toLower
    let am := hasSub "上午".data t || hasSub "am".data lower
    let pm := hasSub "下午".data t || hasSub "pm".data lower
    let hm := removeAmPm (removeOnce "下午".data (removeOnce "上午".data t))
    let pieces := splitChar ':' hm
    let hStr := pieces.getD 0 []
    let mStr := pieces.get? 1
    let h0 : Option Int := jsParseInt (String.mk hStr)
    let m0 : Option Int := jsParseInt (String.mk (match mStr with
      | none => ['0']
      | some s => if s.isEmpty then ['0'] else s))
    let h1 : Option Int := if pm && jnLt h0 (some 12) then jnAdd h0 12 else h0
    let h2 : Option Int := if am && h1 == some 12 then some 0 else h1
    some (match h2, m0 with
      | some h, some m => some (h * 60 + m)
      | _, _ => none)

/-- The locale-short weekday names, Sunday first (`Intl` `zh-TW` short
forms), as the worker's `zhDays` array. -/
def zhDays : List String := ["週日", "週一", "週二", "週三", "週四", "週五", "週六"]

/-- Is `c` one of the day characters of the regex class `[一二三四五六日]`? -/
def zhDayChar (c : Char) : Bool :=
  c = '一' || c = '二' || c = '三' || c = '四' || c = '五' || c = '六' || c = '日'

/-- JS `Array.prototype.indexOf` (−1 when absent). -/
def jsIndexOf (l : List String) (x : String) : Int :=
  match l with
  | [] => -1
  | y :: ys =>
    if y = x then 0
    else
      let r := jsIndexOf ys x
      if r < 0 then -1 else r + 1

/-- Leftmost match of `(週[一二三四五六日])(?:-(週[一二三四五六日]))?`:
the matched day and, when present, the range end. -/
def firstDayMatch : List Char → Option (String × Option String)
  | [] => none
  | c :: cs =>
    if c = '週' then
      match cs with
      | [] => none
      | d :: rest =>
        if zhDayChar d then
          let m2 : Option String :=
            match rest with
            | '-' :: w :: d2 :: _ =>
              if w = '週' && zhDayChar d2 then some (String.mk ['週', d2]) else none
            | _ => none
          some (String.mk ['週', d], m2)
        else firstDayMatch cs
    else firstDayMatch cs

/-- Insertion-ordered set insert (JS `Set.add`). -/
def setAdd (s : List String) (x : String) : List String :=
  if x ∈ s then s else s ++ [x]

/-- Add `zhDays[a]` … `zhDays[b]` to the set (the `for (i=a;i<=b;i++)` loop). -/
def addDayRange (acc : List String) (a b : Nat) : List String :=
  ((List.range (b + 1 - a)).map (fun i => (zhDays.get? (a + i)).getD "")).foldl setAdd acc

/-- `expandChineseDays`: the set of weekday names denoted by a row's
days string (single days and `週x-週y` ranges, split on the listed
separator characters). -/
def expandChineseDays (str : Option String) : List String :=
  if truthyS str = false then []
  else
    let clean := (str.getD "").data.filter (fun c => !(c = '：' || c = ':' || isJsWs c))
    let tokens := (splitAny [',', '，', '、'] clean).filter (fun t => !t.isEmpty)
    tokens.foldl (fun acc tk =>
      match firstDayMatch tk with
      | none => acc
      | some (m1, m2) =>
        let a : Int := jsIndexOf zhDays m1
        let b : Int := match m2 with
          | some d2 => jsIndexOf zhDays d2
          | none => -1
        if a ≥ 0 && b ≥ 0 then addDayRange acc a.toNat b.toNat
        else if a ≥ 0 then setAdd acc ((zhDays.get? a.toNat).getD "")
        else acc) []

/-- The current instant, as `getTaipeiNow` produces it: the `zh-TW` short
weekday name and minutes past midnight, both in `Asia/Taipei`. -/
structure TaipeiNow where
  weekday : String
  minutes : Int
deriving DecidableEq, Repr

/-- Result of `computeOpenNow`. -/
structure OpenInfo where
  isOpen : Bool
  todayHours : Option String
deriving DecidableEq, Repr

/-- `computeOpenNow`: scan the hours rows for the first one that covers
today's weekday and has parseable start/end times; handle ranges that
wrap past midnight; a row whose times fail to parse to non-`null` is
skipped, and `NaN` times make every comparison false. -/
def computeOpenNow (nowTW : TaipeiNow) : List HoursRow → OpenInfo
  | [] => { isOpen := false, todayHours := none }
  | row :: rows =>
    let daysSet := expandChineseDays (jsOrS row.storeDays row.days)
    if daysSet.isEmpty || !daysSet.contains nowTW.weekday then computeOpenNow nowTW rows
    else
      let timStr := (jsOrS (jsOrS row.storeTimings row.timings) (some "")).getD ""
      let pieces := (splitChar '-' timStr.data).map trimChars
      let startRaw : Option String := (pieces.get? 0).map String.mk
      let endRaw : Option String := (pieces.get? 1).map String.mk
      match parseCNTimeToken startRaw, parseCNTimeToken endRaw with
      | some sm, some em =>
        let todayHours := tmplS startRaw ++ " - " ++ tmplS endRaw
        let endv : Option Int := if jnLt em sm then jnAdd em 1440 else em
        let nowv : Int :=
          if jnLt (some nowTW.minutes) sm && jnGt (jnSub endv sm) 720
          then nowTW.minutes + 1440 else nowTW.minutes
        let isOpen := jnLe sm (some nowv) && jnLe (some nowv) endv
        { isOpen := isOpen, todayHours := some todayHours }
      | _, _ => computeOpenNow nowTW rows

/-! ## Store normalization (`normalizeAvailability`) -/

/-- Uppercase hex digit (as `encodeURIComponent` emits). -/
def uhexDigit (k : Nat) : Char :=
  if k < 10 then Char.ofNat (48 + k) else Char.ofNat (55 + k)

/-- UTF-8 bytes of a character. -/
def utf8Bytes (c : Char) : List Nat :=
  let n := c.toNat
  if n < 128 then [n]
  else if n < 2048 then [192 + n / 64, 128 + n % 64]
  else if n < 65536 then [224 + n / 4096, 128 + n / 64 % 64, 128 + n % 64]
  else [240 + n / 262144, 128 + n / 4096 % 64, 128 + n / 64 % 64, 128 + n % 64]

/-- The characters `encodeURIComponent` leaves unescaped. -/
def uriUnreserved (c : Char) : Bool :=
  c.isAlpha || c.isDigit || c = '-' || c = '_' || c = '.' || c = '!' || c = '~' ||
  c = '*' || c.toNat = 39 || c = '(' || c = ')'

/-- JS `encodeURIComponent`. -/
def encodeURIComponent (s : String) : String :=
  String.mk (s.data.flatMap (fun c =>
    if uriUnreserved c then [c]
    else (utf8Bytes c).flatMap (fun b => ['%', uhexDigit (b / 16), uhexDigit (b % 16)])))

/-- The normalized per-store object (`baseStore` in the source), with the
derived open/hours/link fields. -/
structure BaseStore where
  storeNumber : Option String
  storeName : Option String
  city : Option String
  phoneNumber : Option String
  address : Option String
  url : Option String
  latitude : Option Int
  longitude : Option Int
  image : Option String
  hoursRows : List HoursRow
  isOpen : Bool
  todayHours : Option String
  mapsUrl : Option String
  phoneHref : Option String
deriving DecidableEq, Repr

/-- Build the `baseStore` object for one raw store, including the derived
`isOpen`/`todayHours`, the map deep-link and the `tel:` link. -/
def mkBaseStore (nowTW : TaipeiNow) (s : RawStore) : BaseStore :=
  let phoneNumber := jsOrS s.phoneNumber (s.retailStore.bind (fun r => r.phoneNumber))
  let street := s.retailStore.bind (fun r => r.addressStreet)
  let address :=
    match s.address with
    | some a =>
      if truthyS a.address2 then
        some ((a.address2.getD "") ++
          (if truthyS a.address3 then " " ++ a.address3.getD "" else ""))
      else street
    | none => street
  let urlv := jsOrS (jsOrS s.hoursUrl s.makeReservationUrl) s.reservationUrl
  let latitude := jsOrN s.storelatitude (s.retailStore.bind (fun r => r.latitude))
  let longitude := jsOrN s.storelongitude (s.retailStore.bind (fun r => r.longitude))
  let rows :=
    (match s.storeHours with
     | .object (some hs) => hs
     | .object none => []
     | .array rs => rs
     | .missing => []) ++
    (match s.retailStore with
     | some r => r.storeHours.getD []
     | none => [])
  let hoursRows := rows.map (fun r =>
    { storeDays := jsOrS r.storeDays r.days, days := none
    , storeTimings := jsOrS r.storeTimings r.timings, timings := none })
  let oc := computeOpenNow nowTW hoursRows
  let storeNameOr := if truthyS s.storeName then s.storeName.getD "" else "Apple Store"
  let mapsUrl :=
    if truthyN latitude && truthyN longitude then
      some ("https://maps.apple.com/?ll=" ++
        encodeURIComponent (toString (latitude.getD 0) ++ "," ++ toString (longitude.getD 0)) ++
        "&q=" ++ encodeURIComponent storeNameOr)
    else if truthyS address || truthyS s.storeName then
      some ("https://www.google.com/maps/search/?api=1&query=" ++
        encodeURIComponent (storeNameOr ++ " " ++
          (if truthyS address then address.getD "" else "")))
    else none
  let phoneHref :=
    if truthyS phoneNumber then
      some ("tel:" ++ String.mk ((phoneNumber.getD "").data.filter
        (fun c => c = '+' || c.isDigit)))
    else none
  { storeNumber := s.storeNumber, storeName := s.storeName, city := s.city
  , phoneNumber := phoneNumber, address := address, url := urlv
  , latitude := latitude, longitude := longitude, image := s.storeImageUrl
  , hoursRows := hoursRows, isOpen := oc.isOpen, todayHours := oc.todayHours
  , mapsUrl := mapsUrl, phoneHref := phoneHref }

/-- One availability record (store × part). -/
structure AvailRecord where
  store : BaseStore
  part : Part
  status : String
  isBuyable : Bool
  pickupType : String
  pickupQuote : String
deriving DecidableEq, Repr

/-- `normalizeAvailability`: one record per (store, part) pair for which
the store's `partsAvailability` has an entry; status, buyability and
quote are copied through with the source's truthiness defaults. -/
def normalizeAvailability (nowTW : TaipeiNow) (stores : List RawStore) (parts : List Part) :
    List AvailRecord :=
  stores.flatMap (fun s =>
    let baseStore := mkBaseStore nowTW s
    parts.filterMap (fun part =>
      match (s.partsAvailability.find? (fun e => e.1 == part.partNumber)).map (fun e => e.2) with
      | none => none
      | some pa =>
        some { store := baseStore
             , part := part
             , status :=
                 if truthyS pa.pickupDisplay then pa.pickupDisplay.getD ""
                 else if pa.buyableFlag == some true then "available" else "unavailable"
             , isBuyable := pa.buyableFlag == some true
             , pickupType := (jsOrS pa.pickupType (some "店內取貨")).getD ""
             , pickupQuote :=
                 (jsOrS (jsOrS pa.pickupSearchQuote pa.regularStorePickupQuote)
                   (some "目前無法提供")).getD "" }))

/-! ## Snapshot building (`buildAvailabilityPayload`) -/

/-- The compact store projection stored in a snapshot. -/
structure StoreProj where
  storeNumber : Option String
  storeName : Option String
  city : Option String
deriving DecidableEq, Repr

/-- A full availability snapshot (what `buildAvailabilityPayload` returns
and the KV store persists; the optional `source` tag is added only on
HTTP responses, never persisted). -/
structure Snapshot where
  generatedAt : String
  models : List Part
  stores : List StoreProj
  availability : List AvailRecord
deriving DecidableEq, Repr

/-- `buildAvailabilityPayload`: discover parts (propagating total
failure), fetch fulfillment per seed (swallowing seed failures, keeping
only non-empty lists), merge stores, normalize.  `nowISO` is
`new Date().toISOString()`, `nowTW` the formatted Taipei clock. -/
def buildAvailabilityPayload (conf : Config) (page : String → BuyPageResult)
    (ful : List String → String → FulfillResult) (nowISO : String) (nowTW : TaipeiNow) :
    Except String Snapshot :=
  match fetchIphonePartsForFamilies page conf.FAMILIES with
  | .error e => .error e
  | .ok parts =>
    let storesLists := collectStoresLists ful (parts.map (fun p => p.partNumber))
      conf.LOCATION_SEEDS
    let stores := mergeStores storesLists
    .ok { generatedAt := nowISO
        , models := parts
        , stores := stores.map (fun s =>
            { storeNumber := s.storeNumber, storeName := s.storeName, city := s.city })
        , availability := normalizeAvailability nowTW stores parts }

/-- The per-seed store lists a build works from (the value of
`storesLists` inside `buildAvailabilityPayload` once discovery has
succeeded). -/
def storesListsOf (conf : Config) (page : String → BuyPageResult)
    (ful : List String → String → FulfillResult) : List (List RawStore) :=
  collectStoresLists ful ((collectParts page conf.FAMILIES []).map (fun p => p.partNumber))
    conf.LOCATION_SEEDS

/-! ## Snapshot serialization

`encodeSnapshot` is the JS object graph `buildAvailabilityPayload`
returns, as a `Json` value: object keys in the literal's order, fields
that hold JS `undefined` omitted (as `JSON.stringify` does) and fields
the code explicitly sets to `null` (`sku`, `todayHours`) kept as `null`. -/

/-- A possibly-absent string field: omitted when `undefined`. -/
def optStrField (key : String) : Option String → List (String × Json)
  | some v => [(key, .str v)]
  | none => []

/-- A possibly-absent number field: omitted when `undefined`. -/
def optNumField (key : String) : Option Int → List (String × Json)
  | some v => [(key, .num v)]
  | none => []

/-- A field the code sets to `null` when absent. -/
def nullOrStr : Option String → Json
  | none => .null
  | some v => .str v

/-- The JSON form of a part record. -/
def encodePart (p : Part) : Json :=
  .obj ([("name", .str p.name), ("partNumber", .str p.partNumber), ("sku", nullOrStr p.sku),
         ("family", .str p.family)] ++ optNumField "price" p.price)

/-- The JSON form of a normalized hours row (only the two keys the
mapping creates; their values are omitted when `undefined`). -/
def encodeHoursRow (r : HoursRow) : Json :=
  .obj (optStrField "storeDays" r.storeDays ++ optStrField "storeTimings" r.storeTimings)

/-- The JSON form of a `baseStore` object. -/
def encodeBaseStore (b : BaseStore) : Json :=
  .obj (optStrField "storeNumber" b.storeNumber ++ optStrField "storeName" b.storeName ++
    optStrField "city" b.city ++ optStrField "phoneNumber" b.phoneNumber ++
    optStrField "address" b.address ++ optStrField "url" b.url ++
    optNumField "latitude" b.latitude ++ optNumField "longitude" b.longitude ++
    optStrField "image" b.image ++
    [("hoursRows", .arr (b.hoursRows.map encodeHoursRow)), ("isOpen", .bool b.isOpen),
     ("todayHours", nullOrStr b.todayHours)] ++
    optStrField "mapsUrl" b.mapsUrl ++ optStrField "phoneHref" b.phoneHref)

/-- The JSON form of an availability record. -/
def encodeAvailRecord (a : AvailRecord) : Json :=
  .obj [("store", encodeBaseStore a.store), ("part", encodePart a.part),
        ("status", .str a.status), ("isBuyable", .bool a.isBuyable),
        ("pickupType", .str a.pickupType), ("pickupQuote", .str a.pickupQuote)]

/-- The JSON form of a store projection. -/
def encodeStoreProj (s : StoreProj) : Json :=
  .obj (optStrField "storeNumber" s.storeNumber ++ optStrField "storeName" s.storeName ++
    optStrField "city" s.city)

/-- The JSON form of a snapshot. -/
def encodeSnapshot (snap : Snapshot) : Json :=
  .obj [("generatedAt", .str snap.generatedAt),
        ("models", .arr (snap.models.map encodePart)),
        ("stores", .arr (snap.stores.map encodeStoreProj)),
        ("availability", .arr (snap.availability.map encodeAvailRecord))]

/-! ## The durable KV store (`putKV` / `getKV`)

`env.AVAIL_KV` maps string keys to string values; `put` overwrites,
`get` of an absent key is `null`.  The expiration TTL is enforced by the
platform and is carried but not modelled. -/

/-- KV `put`: overwrite the value under `key`. -/
def kvPut (kv : List (String × String)) (key v : String) : List (String × String) :=
  (key, v) :: kv.filter (fun e => e.1 != key)

/-- KV `get`. -/
def kvRead (kv : List (String × String)) (key : String) : Option String :=
  (kv.find? (fun e => e.1 == key)).map (fun e => e.2)

/-- `putKV`: serialize with `JSON.stringify` and store. -/
def putKV (kv : List (String × String)) (key : String) (json : Json)
    (_ttlSeconds : Option Nat) : List (String × String) :=
  kvPut kv key (jsonStringify json)

/-- `getKV`: read and `JSON.parse`, with the source's `v ? … : null`
falsiness check on the raw string. -/
def getKV (kv : List (String × String)) (key : String) : Option Json :=
  match kvRead kv key with
  | some v => if v = "" then none else jsonParse v
  | none => none

/-! ## HTTP layer: responses, cache keys, the availability handler

A request URL is its origin+path plus the ordered query pairs.  The edge
cache (`caches.default`) maps canonicalized request URLs to stored
responses.  `ctx.waitUntil` tasks are returned as explicit `BgTask`
values, in registration order, with `runBgTask` giving each task's
effect on the caches; the durable KV store appears as the typed
`kvLatest` cell (the single key `availability.latest`; its string
serialization is verified separately by the round-trip theorem). -/

/-- A request URL: origin+path and the ordered query parameters. -/
structure Url where
  base : String
  query : List (String × String)
deriving DecidableEq, Repr

/-- `URLSearchParams.get`: the first value under the name, else `null`. -/
def searchParamsGet (q : List (String × String)) (name : String) : Option String :=
  (q.find? (fun e => e.1 == name)).map (fun e => e.2)

/-- `availabilityCacheKey`: the request URL with the `force` and
`refresh` parameters deleted (the cache key `Request` is keyed by this
URL). -/
def availabilityCacheKey (url : Url) : Url :=
  { url with query := url.query.filter (fun e => e.1 != "force" && e.1 != "refresh") }

/-- The handler's `force` flag:
`url.searchParams.get('force') === '1' || url.searchParams.get('refresh') === '1'`. -/
def isForceRequest (url : Url) : Bool :=
  searchParamsGet url.query "force" == some "1" ||
  searchParamsGet url.query "refresh" == some "1"

/-- A response body: the snapshot spread after a `source` tag
(`{ source: tag, ...snapshot }`; stored snapshots carry no `source` key,
so the tag always survives the spread). -/
structure TaggedPayload where
  source : String
  payload : Snapshot
deriving DecidableEq, Repr

/-- The cache lifetimes `makeJSON` receives. -/
structure Ttls where
  browserMaxAge : Nat
  edgeMaxAge : Nat
  swr : Nat
deriving DecidableEq, Repr

/-- An HTTP JSON response: the body and the cache-control lifetimes
(`max-age` for browsers, `s-maxage` for the edge, the SWR hint), plus
the rendered header value. -/
structure Response where
  body : TaggedPayload
  browserMaxAge : Nat
  edgeMaxAge : Nat
  swr : Nat
  cacheControl : String
deriving DecidableEq, Repr

/-- `makeJSON`: build the JSON response with its cache-control header. -/
def makeJSON (data : TaggedPayload) (t : Ttls) : Response :=
  let b := t.browserMaxAge
  let e := t.edgeMaxAge
  let w := t.swr
  { body := data, browserMaxAge := b, edgeMaxAge := e, swr := w
  , cacheControl := s!"public, max-age={b}, s-maxage={e}, stale-while-revalidate={w}" }

/-- Does the payload contain at least one buyable or `available` record? -/
def hasAvailability (snap : Snapshot) : Bool :=
  snap.availability.any (fun a => a.isBuyable || a.status == "available")

/-- The handler's `computeTtls`: shorter edge/SWR lifetimes when any
availability exists. -/
def computeTtls (payload : TaggedPayload) : Ttls :=
  let hasAvail := hasAvailability payload.payload
  { browserMaxAge := 0
  , edgeMaxAge := if hasAvail then 10 else 20
  , swr := if hasAvail then 60 else 90 }

/-- The cache state one invocation sees: the edge response cache and the
value under the KV key `availability.latest`. -/
structure World where
  edge : List (Url × Response)
  kvLatest : Option Snapshot
deriving DecidableEq, Repr

/-- `caches.default.match`. -/
def edgeMatch (edge : List (Url × Response)) (key : Url) : Option Response :=
  (edge.find? (fun e => e.1 == key)).map (fun e => e.2)

/-- `caches.default.put`: overwrite the entry under `key`. -/
def edgePut (edge : List (Url × Response)) (key : Url) (res : Response) :
    List (Url × Response) :=
  (key, res) :: edge.filter (fun e => e.1 != key)

/-- A `ctx.waitUntil` task the handler registers: either the background
rebuild-persist-recache closure (`warmTtls` selects the cold-start
branch's fixed `{5, 60, 300}` lifetimes over `computeTtls`) or a plain
`cache.put` of an already-built response. -/
inductive BgTask where
  | rebuildAndCache (key : Url) (warmTtls : Bool)
  | seedEdge (key : Url) (res : Response)
deriving DecidableEq, Repr

/-- `refreshAvailabilityKV`: rebuild the snapshot and persist it under
`availability.latest` (15-minute safety TTL); on failure the store is
untouched and the error propagates. -/
def refreshAvailabilityKV (conf : Config) (page : String → BuyPageResult)
    (ful : List String → String → FulfillResult) (nowISO : String) (nowTW : TaipeiNow)
    (w : World) : Except String Snapshot × World :=
  match buildAvailabilityPayload conf page ful nowISO nowTW with
  | .ok payload => (.ok payload, { w with kvLatest := some payload })
  | .error e => (.error e, w)

/-- `handleApiAvailability`: the full request path.  Returns the
response, the post-invocation synchronous cache state, and the
registered background tasks (in registration order); a foreground
rebuild failure propagates as the thrown error. -/
def handleApiAvailability (conf : Config) (page : String → BuyPageResult)
    (ful : List String → String → FulfillResult) (nowISO : String) (nowTW : TaipeiNow)
    (url : Url) (w : World) : Except String (Response × World × List BgTask) :=
  let force := isForceRequest url
  let cacheKey := availabilityCacheKey url
  if force = false then
    match edgeMatch w.edge cacheKey with
    | some edgeHit => .ok (edgeHit, w, [])
    | none =>
      match w.kvLatest with
      | some cached =>
        let payload : TaggedPayload := { source := "kv", payload := cached }
        let res := makeJSON payload (computeTtls payload)
        .ok (res, w, [.rebuildAndCache cacheKey false, .seedEdge cacheKey res])
      | none =>
        let warm : TaggedPayload :=
          { source := "warmup"
          , payload := { generatedAt := nowISO, models := [], stores := [], availability := [] } }
        .ok (makeJSON warm (computeTtls warm), w, [.rebuildAndCache cacheKey true])
  else
    match refreshAvailabilityKV conf page ful nowISO nowTW w with
    | (.ok freshSnap, w2) =>
      let freshPayload : TaggedPayload := { source := "fresh", payload := freshSnap }
      let freshRes := makeJSON freshPayload (computeTtls freshPayload)
      .ok (freshRes, w2, [.seedEdge cacheKey freshRes])
    | (.error e, _) => .error e

/-- The effect of one registered background task.  The rebuild task runs
`refreshAvailabilityKV` inside a `try … catch {}`: on failure nothing
changes; on success the KV cell holds the rebuilt snapshot and the edge
entry is overwritten with the rebuilt copy tagged `fresh`. -/
def runBgTask (conf : Config) (page : String → BuyPageResult)
    (ful : List String → String → FulfillResult) (nowISO : String) (nowTW : TaipeiNow)
    (w : World) : BgTask → World
  | .seedEdge key res => { w with edge := edgePut w.edge key res }
  | .rebuildAndCache key warmTtls =>
    match refreshAvailabilityKV conf page ful nowISO nowTW w with
    | (.ok fresh, w2) =>
      let freshPayload : TaggedPayload := { source := "fresh", payload := fresh }
      let ttls := if warmTtls then { browserMaxAge := 5, edgeMaxAge := 60, swr := 300 }
                  else computeTtls freshPayload
      { w2 with edge := edgePut w2.edge key (makeJSON freshPayload ttls) }
    | (.error _, w2) => w2

/-- The `scheduled` cron entry point: run the rebuild-and-persist
sequence, discarding the result (an error only aborts this run). -/
def scheduledRefresh (conf : Config) (page : String → BuyPageResult)
    (ful : List String → String → FulfillResult) (nowISO : String) (nowTW : TaipeiNow)
    (w : World) : World :=
  (refreshAvailabilityKV conf page ful nowISO nowTW w).2

/-! ## Concrete fixtures

Small concrete oracles, worlds and payloads used to instantiate the
theorems below on closed inputs. -/

/-- A two-family configuration. -/
def exConf : Config := { FAMILIES := ["f1", "f2"], LOCATION_SEEDS := ["Taiwan"] }

/-- Product entries: `P1` appears on both family pages. -/
def exProdA : RawProduct := { name := some "A", partNumber := some "P1", category := some "iphone" }

/-- A duplicate of `P1` on the second family page. -/
def exProdB : RawProduct := { name := some "B", partNumber := some "P1", category := some "iphone" }

/-- A product only the second family carries. -/
def exProdC : RawProduct := { name := some "C", partNumber := some "P2", category := some "iphone" }

/-- A page oracle: `f1` and `f2` succeed, everything else is a 404. -/
def exPage : String → BuyPageResult := fun slug =>
  if slug = "f1" then .metrics [exProdA]
  else if slug = "f2" then .metrics [exProdB, exProdC]
  else .httpError 404

/-- A page oracle on which every family fetch fails. -/
def exPageFail : String → BuyPageResult := fun _ => .httpError 404

/-- A fulfillment oracle whose every fetch fails (so no stores). -/
def exFul : List String → String → FulfillResult := fun _ _ => .httpError 500

/-- A fixed Taipei clock reading. -/
def exNow : TaipeiNow := { weekday := "週一", minutes := 900 }

/-- The part `exPage`'s family `f1` yields. -/
def exPartA : Part := { name := "A", partNumber := "P1", sku := none, family := "f1", price := none }

/-- The first part `exPage`'s family `f2` yields (duplicate number). -/
def exPartB : Part := { name := "B", partNumber := "P1", sku := none, family := "f2", price := none }

/-- The second part `exPage`'s family `f2` yields. -/
def exPartC : Part := { name := "C", partNumber := "P2", sku := none, family := "f2", price := none }

/-- Family `f2`'s full part list under `exPage`. -/
def exPartsF2 : List Part := [exPartB, exPartC]

/-- The snapshot `buildAvailabilityPayload` produces from `exPage` and
`exFul` at time `t0`. -/
def exSnap : Snapshot :=
  { generatedAt := "t0", models := [exPartA, exPartC], stores := [], availability := [] }

/-- A normalized store object used in availability-record fixtures. -/
def exBase : BaseStore :=
  { storeNumber := some "R1", storeName := some "S", city := some "T"
  , phoneNumber := none, address := none, url := none, latitude := none, longitude := none
  , image := none, hoursRows := [], isOpen := false, todayHours := none
  , mapsUrl := none, phoneHref := none }

/-- A buyable availability record. -/
def exRec : AvailRecord :=
  { store := exBase, part := exPartA, status := "available", isBuyable := true
  , pickupType := "店內取貨", pickupQuote := "今天" }

/-- A payload with one buyable record. -/
def exPayloadAvail : TaggedPayload :=
  ⟨"kv", { generatedAt := "t", models := [], stores := [], availability := [exRec] }⟩

/-- A payload with no availability. -/
def exPayloadNone : TaggedPayload :=
  ⟨"kv", { generatedAt := "t", models := [], stores := [], availability := [] }⟩

/-- A plain request URL with an empty query. -/
def exUrl : Url := { base := "https://w.example/api/availability", query := [] }

/-- A forced request URL. -/
def exUrlForce : Url := { base := "https://w.example/api/availability", query := [("force", "1")] }

/-- A URL whose query carries `force=0&force=1` (first value `0`). -/
def exUrlDup : Url :=
  { base := "https://w.example/api/availability", query := [("force", "0"), ("force", "1")] }

/-- A stored edge response. -/
def exEdgeRes : Response := makeJSON exPayloadNone (computeTtls exPayloadNone)

/-- An empty world: edge cache and KV both empty. -/
def exWorld0 : World := { edge := [], kvLatest := none }

/-- A world whose KV holds `exSnap` and whose edge cache is empty. -/
def exWorldKV : World := { edge := [], kvLatest := some exSnap }

/-- A world whose edge cache holds `exEdgeRes` under the canonical
availability key (the empty-query URL). -/
def exWorldEdge : World :=
  { edge := [({ base := "https://w.example/api/availability", query := [] }, exEdgeRes)]
  , kvLatest := none }

/-! # Proofs

## The JSON codec round-trip -/

/-- A decimal digit character is a digit and carries its value. -/
theorem decDigit_spec (k : Nat) (h : k < 10) :
    (decDigit k).isDigit = true ∧ (decDigit k).toNat = 48 + k := by
  interval_cases k <;> exact ⟨by decide, by decide⟩

/-- A rendered number is never the empty list. -/
theorem natChars_ne_nil (n : Nat) : natChars n ≠ [] := by
  rw [natChars.eq_def]
  split <;> simp

/-- Every character of a rendered natural is a digit. -/
theorem natChars_digits (n : Nat) : ∀ c ∈ natChars n, c.isDigit = true := by
  induction n using Nat.strongRecOn with
  | _ n ih =>
    rw [natChars.eq_def]
    by_cases h : n < 10
    · simp only [if_pos h, List.mem_singleton]
      rintro c rfl
      exact (decDigit_spec n h).1
    · simp only [if_neg h]
      intro c hc
      rcases List.mem_append.mp hc with hm | hm
      · exact ih (n / 10) (by omega) c hm
      · rw [List.mem_singleton] at hm
        subst hm
        exact (decDigit_spec (n % 10) (Nat.mod_lt _ (by omega))).1

/-- A rendered natural starts with a digit character. -/
theorem natChars_cons (n : Nat) :
    ∃ c t, natChars n = c :: t ∧ c.isDigit = true := by
  cases hnc : natChars n with
  | nil => exact absurd hnc (natChars_ne_nil n)
  | cons c t =>
    refine ⟨c, t, rfl, natChars_digits n c ?_⟩
    rw [hnc]; exact List.mem_cons_self ..

/-- `digitRun` consumes exactly a digit run that a non-digit follows. -/
theorem digitRun_append (dl : List Char) (hds : ∀ c ∈ dl, c.isDigit = true)
    (rest : List Char) (hrest : noDigitHead rest = true) :
    digitRun (dl ++ rest) = (dl, rest) := by
  induction dl with
  | nil =>
    cases rest with
    | nil => rfl
    | cons c t =>
      simp only [noDigitHead, Bool.not_eq_true'] at hrest
      simp [digitRun, hrest]
  | cons c t ih =>
    have hc : c.isDigit = true := hds c (List.mem_cons_self ..)
    simp [digitRun, hc, ih (fun x hx => hds x (List.mem_cons_of_mem _ hx))]

/-- Reading back the digits of `n` recovers `n`. -/
theorem digitVal_natChars (n : Nat) : digitVal (natChars n) = n := by
  induction n using Nat.strongRecOn with
  | _ n ih =>
    rw [natChars.eq_def]
    by_cases h : n < 10
    · simp [if_pos h, digitVal, (decDigit_spec n h).2]
    · simp only [if_neg h]
      have hq := ih (n / 10) (by omega)
      unfold digitVal at hq ⊢
      rw [List.foldl_append, hq]
      simp [(decDigit_spec (n % 10) (Nat.mod_lt _ (by omega))).2]
      omega

/-- `String.mk` undoes `String.data`. -/
theorem strMk_data (s : String) : String.mk s.data = s := by cases s; rfl

/-- Hex digits read back their value. -/
theorem hexNibble_lhex (k : Nat) (h : k < 16) : hexNibble (lhexDigit k) = some k := by
  interval_cases k <;> decide

/-- Parsing one escaped character prepends the character it encodes. -/
theorem strBody_escChar (c : Char) (tail : List Char) :
    strBody (escChar c ++ tail) =
      match strBody tail with
      | some (body, rem) => some (c :: body, rem)
      | none => none := by
  by_cases h1 : c = '"'
  · subst h1
    rw [show escChar '"' ++ tail = '\\' :: '"' :: tail from rfl, strBody.eq_def]
    simp [escDecode]
  by_cases h2 : c = '\\'
  · subst h2
    rw [show escChar '\\' ++ tail = '\\' :: '\\' :: tail from rfl, strBody.eq_def]
    simp [escDecode]
  by_cases h3 : c = '\n'
  · subst h3
    rw [show escChar '\n' ++ tail = '\\' :: 'n' :: tail from rfl, strBody.eq_def]
    simp [escDecode]
  by_cases h4 : c = '\r'
  · subst h4
    rw [show escChar '\r' ++ tail = '\\' :: 'r' :: tail from rfl, strBody.eq_def]
    simp [escDecode]
  by_cases h5 : c = '\t'
  · subst h5
    rw [show escChar '\t' ++ tail = '\\' :: 't' :: tail from rfl, strBody.eq_def]
    simp [escDecode]
  by_cases h6 : c.toNat = 8
  · have hc : c = Char.ofNat 8 := by rw [← h6, Char.ofNat_toNat]
    subst hc
    rw [show escChar (Char.ofNat 8) ++ tail = '\\' :: 'b' :: tail from rfl, strBody.eq_def]
    simp [escDecode]
  by_cases h7 : c.toNat = 12
  · have hc : c = Char.ofNat 12 := by rw [← h7, Char.ofNat_toNat]
    subst hc
    rw [show escChar (Char.ofNat 12) ++ tail = '\\' :: 'f' :: tail from rfl, strBody.eq_def]
    simp [escDecode]
  by_cases h8 : c.toNat < 32
  · have hhi : c.toNat / 16 < 16 := by omega
    have hlo : c.toNat % 16 < 16 := Nat.mod_lt _ (by omega)
    have heq : escChar c ++ tail =
        '\\' :: 'u' :: '0' :: '0' :: lhexDigit (c.toNat / 16) ::
          lhexDigit (c.toNat % 16) :: tail := by
      simp only [escChar, if_neg h1, if_neg h2, if_neg h3, if_neg h4, if_neg h5,
        if_neg h6, if_neg h7, if_pos h8, List.cons_append, List.nil_append]
    rw [heq, strBody.eq_def]
    have harith : c.toNat / 16 * 16 + c.toNat % 16 = c.toNat := Nat.div_add_mod' ..
    have h0 : hexNibble '0' = some 0 := by decide
    simp [h0, hexNibble_lhex _ hhi, hexNibble_lhex _ hlo, harith, Char.ofNat_toNat]
  · have heq : escChar c ++ tail = c :: tail := by
      simp only [escChar, if_neg h1, if_neg h2, if_neg h3, if_neg h4, if_neg h5,
        if_neg h6, if_neg h7, if_neg h8, List.cons_append, List.nil_append]
    rw [heq, strBody.eq_def]
    simp [h1, h2]

/-- Parsing an escaped body stops exactly at the closing quote. -/
theorem strBody_flat (cs : List Char) : ∀ rest : List Char,
    strBody (cs.flatMap escChar ++ '"' :: rest) = some (cs, rest) := by
  induction cs with
  | nil =>
    intro rest
    rw [List.flatMap_nil, List.nil_append, strBody.eq_def]
    simp
  | cons c t ih =>
    intro rest
    rw [List.flatMap_cons, List.append_assoc, strBody_escChar, ih rest]

/-- A digit character is none of the characters the value parser
dispatches on, nor a structural delimiter. -/
theorem isDigit_ne (c : Char) (h : c.isDigit = true) :
    ∀ d ∈ ['n', 't', 'f', '"', '[', '{', '-', ']', '}', ','], c ≠ d := by
  intro d hd he
  subst he
  fin_cases hd <;> exact absurd h (by decide)

/-- Parsing a rendered integer recovers it, whenever the remainder
cannot extend the digit run. -/
theorem pVal_num (n : Int) (fuel : Nat) (rest : List Char)
    (hr : noDigitHead rest = true) :
    pVal (fuel + 1) (intChars n ++ rest) = some (.num n, rest) := by
  obtain ⟨c0, t0, hc0, hd0⟩ := natChars_cons n.natAbs
  have hrun : digitRun (natChars n.natAbs ++ rest) = (natChars n.natAbs, rest) :=
    digitRun_append _ (natChars_digits _) rest hr
  have hrun2 : digitRun (c0 :: (t0 ++ rest)) = (natChars n.natAbs, rest) := by
    rw [← List.cons_append, ← hc0]; exact hrun
  by_cases hn : n < 0
  · have hshape : intChars n ++ rest = '-' :: (c0 :: (t0 ++ rest)) := by
      simp [intChars, hn, hc0]
    rw [hshape, pVal.eq_def]
    simp [pNeg, hd0, hrun2]
    rw [digitVal_natChars]
    omega
  · have hshape : intChars n ++ rest = c0 :: (t0 ++ rest) := by
      simp [intChars, hn, hc0]
    have hkn := isDigit_ne c0 hd0 'n' (by decide)
    have hkt := isDigit_ne c0 hd0 't' (by decide)
    have hkf := isDigit_ne c0 hd0 'f' (by decide)
    have hkq := isDigit_ne c0 hd0 '"' (by decide)
    have hkb := isDigit_ne c0 hd0 '[' (by decide)
    have hkc := isDigit_ne c0 hd0 '{' (by decide)
    have hkm := isDigit_ne c0 hd0 '-' (by decide)
    rw [hshape, pVal.eq_def]
    simp [hkn, hkt, hkf, hkq, hkb, hkc, hkm, hd0, hrun2]
    rw [digitVal_natChars]
    omega

/-- The first character of a rendered value is never `]` or `}`. -/
theorem jsonChars_head (j : Json) :
    ∃ k t, jsonChars j = k :: t ∧ k ≠ ']' ∧ k ≠ '}' := by
  cases j with
  | null =>
    exact ⟨'n', "ull".data, by simp only [jsonChars], by decide⟩
  | bool b =>
    cases b
    · exact ⟨'f', "alse".data, by simp only [jsonChars], by decide⟩
    · exact ⟨'t', "rue".data, by simp only [jsonChars], by decide⟩
  | str s =>
    exact ⟨'"', s.data.flatMap escChar ++ ['"'], by simp [jsonChars, strChars],
      by decide, by decide⟩
  | arr items =>
    cases items with
    | nil => exact ⟨'[', [']'], by simp [jsonChars], by decide, by decide⟩
    | cons x xs =>
      exact ⟨'[', itemChars x xs ++ [']'], by simp [jsonChars], by decide, by decide⟩
  | obj fields =>
    cases fields with
    | nil => exact ⟨'{', ['}'], by simp [jsonChars], by decide, by decide⟩
    | cons f fs =>
      exact ⟨'{', fieldChars f fs ++ ['}'], by simp [jsonChars], by decide, by decide⟩
  | num n =>
    by_cases hn : n < 0
    · exact ⟨'-', natChars n.natAbs, by simp [jsonChars, intChars, hn], by decide, by decide⟩
    · obtain ⟨c0, t0, hc0, hd0⟩ := natChars_cons n.natAbs
      refine ⟨c0, t0, ?_, isDigit_ne c0 hd0 ']' (by decide), isDigit_ne c0 hd0 '}' (by decide)⟩
      simp [jsonChars, intChars, hn, hc0]

/-- A non-empty item list renders with its first value in front. -/
theorem itemChars_shape (x : Json) (xs : List Json) :
    ∃ suffix, itemChars x xs = jsonChars x ++ suffix := by
  cases xs with
  | nil => exact ⟨[], by simp [itemChars]⟩
  | cons y ys => exact ⟨',' :: itemChars y ys, by simp [itemChars]⟩

mutual

/-- Round trip for one value: parsing its serialization yields it back,
for any fuel above its length and any remainder that cannot extend a
number. -/
theorem rtVal : ∀ (j : Json) (fuel : Nat) (rest : List Char),
    (jsonChars j).length < fuel → noDigitHead rest = true →
    pVal fuel (jsonChars j ++ rest) = some (j, rest)
  | _, 0, _, hf, _ => absurd hf (Nat.not_lt_zero _)
  | .null, fuel + 1, rest, _, _ => by
    rw [show jsonChars .null ++ rest = 'n' :: ('u' :: 'l' :: 'l' :: rest) from by
      simp only [jsonChars]; rfl]
    simp [pVal, expectChars]
  | .bool true, fuel + 1, rest, _, _ => by
    rw [show jsonChars (.bool true) ++ rest = 't' :: ('r' :: 'u' :: 'e' :: rest) from by
      simp only [jsonChars]; rfl]
    simp [pVal, expectChars]
  | .bool false, fuel + 1, rest, _, _ => by
    rw [show jsonChars (.bool false) ++ rest = 'f' :: ('a' :: 'l' :: 's' :: 'e' :: rest) from by
      simp only [jsonChars]; rfl]
    simp [pVal, expectChars]
  | .num n, fuel + 1, rest, _, hr => by
    rw [show jsonChars (.num n) = intChars n from by simp [jsonChars]]
    exact pVal_num n fuel rest hr
  | .str s, fuel + 1, rest, _, _ => by
    rw [show jsonChars (.str s) ++ rest
        = '"' :: (s.data.flatMap escChar ++ '"' :: rest) from by simp [jsonChars, strChars]]
    simp [pVal, strBody_flat, strMk_data]
  | .arr [], fuel + 1, rest, _, _ => by
    rw [show jsonChars (.arr []) ++ rest = '[' :: ']' :: rest from by simp [jsonChars]]
    simp [pVal, pClose]
  | .arr (x :: xs), fuel + 1, rest, hf, _ => by
    obtain ⟨c0, t0, hc0, hbr, _⟩ := jsonChars_head x
    obtain ⟨suf, hsuf⟩ := itemChars_shape x xs
    have hfuel : (itemChars x xs).length + 1 < fuel := by
      have hlen : (jsonChars (.arr (x :: xs))).length = (itemChars x xs).length + 2 := by
        simp [jsonChars]
      omega
    have hit := rtItems x xs fuel rest hfuel
    have hcons : itemChars x xs ++ ']' :: rest = c0 :: (t0 ++ suf ++ ']' :: rest) := by
      rw [hsuf, hc0]; simp
    have hpc : pClose ']' Json.arr (pItems fuel) (itemChars x xs ++ ']' :: rest)
        = some (Json.arr (x :: xs), rest) := by
      rw [hcons]
      simp only [pClose, if_neg hbr]
      rw [← hcons, hit]
    rw [show jsonChars (.arr (x :: xs)) ++ rest
        = '[' :: (itemChars x xs ++ ']' :: rest) from by simp [jsonChars]]
    simp [pVal, hpc]
  | .obj [], fuel + 1, rest, _, _ => by
    rw [show jsonChars (.obj []) ++ rest = '{' :: '}' :: rest from by simp [jsonChars]]
    simp [pVal, pClose]
  | .obj (f :: fs), fuel + 1, rest, hf, _ => by
    have hfuel : (fieldChars f fs).length + 1 < fuel := by
      have hlen : (jsonChars (.obj (f :: fs))).length = (fieldChars f fs).length + 2 := by
        simp [jsonChars]
      omega
    have hft := rtFields f fs fuel rest hfuel
    have hhead : ∃ t, fieldChars f fs = '"' :: t := by
      obtain ⟨k, v⟩ := f
      cases fs with
      | nil =>
        exact ⟨k.data.flatMap escChar ++ '"' :: ':' :: jsonChars v,
          by simp [fieldChars, strChars]⟩
      | cons g gs =>
        exact ⟨k.data.flatMap escChar ++ '"' :: ':' :: (jsonChars v ++ ',' :: fieldChars g gs),
          by simp [fieldChars, strChars]⟩
    obtain ⟨t, ht⟩ := hhead
    have hpc : pClose '}' Json.obj (pFields fuel) (fieldChars f fs ++ '}' :: rest)
        = some (Json.obj (f :: fs), rest) := by
      rw [ht, List.cons_append]
      simp only [pClose, if_neg (by decide : ¬('"' : Char) = '}')]
      rw [← List.cons_append, ← ht, hft]
    rw [show jsonChars (.obj (f :: fs)) ++ rest
        = '{' :: (fieldChars f fs ++ '}' :: rest) from by simp [jsonChars]]
    simp [pVal, hpc]
termination_by j _ _ _ _ => sizeOf j
decreasing_by all_goals (first | (simp; omega) | simp | omega)

/-- Round trip for a non-empty item list followed by `]`. -/
theorem rtItems : ∀ (x : Json) (xs : List Json) (fuel : Nat) (rest : List Char),
    (itemChars x xs).length + 1 < fuel →
    pItems fuel (itemChars x xs ++ ']' :: rest) = some (x :: xs, rest)
  | _, _, 0, _, hf => absurd hf (Nat.not_lt_zero _)
  | x, [], fuel + 1, rest, hf => by
    have hone : itemChars x [] = jsonChars x := by simp [itemChars]
    have hfv : (jsonChars x).length < fuel := by rw [hone] at hf; omega
    have hv := rtVal x fuel (']' :: rest) hfv rfl
    rw [hone]
    simp only [pItems]
    rw [hv]
    simp [pMoreItems]
  | x, y :: ys, fuel + 1, rest, hf => by
    have hcons : itemChars x (y :: ys) = jsonChars x ++ ',' :: itemChars y ys := by
      simp [itemChars]
    have hlen : (itemChars x (y :: ys)).length
        = (jsonChars x).length + 1 + (itemChars y ys).length := by
      rw [hcons]; simp; try omega
    have hfv : (jsonChars x).length < fuel := by omega
    have hfy : (itemChars y ys).length + 1 < fuel := by omega
    have hv := rtVal x fuel (',' :: (itemChars y ys ++ ']' :: rest)) hfv rfl
    have hrec := rtItems y ys fuel rest hfy
    rw [show itemChars x (y :: ys) ++ ']' :: rest
        = jsonChars x ++ ',' :: (itemChars y ys ++ ']' :: rest) from by
      rw [hcons]; simp]
    simp only [pItems]
    rw [hv]
    simp [pMoreItems, hrec]
termination_by x xs _ _ _ => sizeOf x + sizeOf xs
decreasing_by all_goals (first | (simp; omega) | simp | omega)

/-- Round trip for a non-empty member list followed by `}`. -/
theorem rtFields : ∀ (f : String × Json) (fs : List (String × Json)) (fuel : Nat)
    (rest : List Char),
    (fieldChars f fs).length + 1 < fuel →
    pFields fuel (fieldChars f fs ++ '}' :: rest) = some (f :: fs, rest)
  | _, _, 0, _, hf => absurd hf (Nat.not_lt_zero _)
  | (k, v), [], fuel + 1, rest, hf => by
    have hlen : (fieldChars (k, v) []).length
        = (strChars k).length + 1 + (jsonChars v).length := by
      simp [fieldChars]; omega
    have hfv : (jsonChars v).length < fuel := by omega
    have hv := rtVal v fuel ('}' :: rest) hfv rfl
    rw [show fieldChars (k, v) [] ++ '}' :: rest
        = '"' :: (k.data.flatMap escChar ++ '"' :: (':' :: (jsonChars v ++ '}' :: rest)))
        from by simp [fieldChars, strChars]]
    simp only [pFields, if_pos rfl]
    rw [strBody_flat]
    simp only [pAfterKey, if_pos rfl]
    rw [hv]
    simp [pMoreFields, strMk_data]
  | (k, v), g :: gs, fuel + 1, rest, hf => by
    have hlen : (fieldChars (k, v) (g :: gs)).length
        = (strChars k).length + 1 + (jsonChars v).length + 1
          + (fieldChars g gs).length := by
      simp [fieldChars]; omega
    have hfv : (jsonChars v).length < fuel := by omega
    have hfg : (fieldChars g gs).length + 1 < fuel := by omega
    have hv := rtVal v fuel (',' :: (fieldChars g gs ++ '}' :: rest)) hfv rfl
    have hrec := rtFields g gs fuel rest hfg
    rw [show fieldChars (k, v) (g :: gs) ++ '}' :: rest
        = '"' :: (k.data.flatMap escChar
            ++ '"' :: (':' :: (jsonChars v ++ ',' :: (fieldChars g gs ++ '}' :: rest))))
        from by simp [fieldChars, strChars]]
    simp only [pFields, if_pos rfl]
    rw [strBody_flat]
    simp only [pAfterKey, if_pos rfl]
    rw [hv]
    simp [pMoreFields, strMk_data, hrec]
termination_by f fs _ _ _ => sizeOf f + sizeOf fs
decreasing_by all_goals (first | (simp; omega) | simp | omega)

end

/-- The codec round trip: `JSON.parse` undoes `JSON.stringify` on every
value. -/
theorem jsonParse_stringify (j : Json) : jsonParse (jsonStringify j) = some j := by
  have h := rtVal j ((jsonChars j).length + 1) [] (by omega) rfl
  rw [List.append_nil] at h
  have hdef : jsonParse (jsonStringify j)
      = match pVal ((jsonChars j).length + 1) (jsonChars j) with
        | some (jj, []) => some jj
        | _ => none := rfl
  rw [hdef, h]

/-- A serialization is never the empty list of characters. -/
theorem jsonChars_ne_nil (j : Json) : jsonChars j ≠ [] := by
  obtain ⟨c, t, h, _, _⟩ := jsonChars_head j
  simp [h]

/-- A serialization is never the empty string (so `getKV`'s truthiness
check on the raw value never discards a stored snapshot). -/
theorem jsonStringify_ne_empty (j : Json) : jsonStringify j ≠ "" := by
  intro h
  have hd : jsonChars j = ([] : List Char) := congrArg String.data h
  exact jsonChars_ne_nil j hd

/-- C7: for every snapshot value, writing it to the durable store with
`putKV` and reading it back with `getKV` under the same key yields a
value equal, field for field, to the value that was written (the written
value being the snapshot's JS object graph `encodeSnapshot`; equality of
`Json` values is field-for-field equality). -/
theorem putKV_getKV_roundtrip (kv : List (String × String)) (key : String) (s : Snapshot) :
    getKV (putKV kv key (encodeSnapshot s) (some (60 * 15))) key
      = some (encodeSnapshot s) := by
  have hfind : (kvPut kv key (jsonStringify (encodeSnapshot s))).find?
      (fun e => e.1 == key) = some (key, jsonStringify (encodeSnapshot s)) := by
    simp [kvPut]
  simp [getKV, putKV, kvRead, hfind, jsonStringify_ne_empty, jsonParse_stringify]

/-! ## First-wins deduplication (part discovery and store merging) -/

/-- The kept elements form a sublist of the input (first-seen order). -/
theorem firstWinsOut_sublist (key : α → String) (l : List α) : ∀ seen,
    (firstWinsOut key seen l).Sublist l := by
  induction l with
  | nil => intro seen; simp [firstWinsOut]
  | cons x rest ih =>
    intro seen
    by_cases h : key x ∈ seen
    · simp only [firstWinsOut, if_pos h]
      exact (ih seen).cons x
    · simp only [firstWinsOut, if_neg h]
      exact (ih (key x :: seen)).cons₂ x

/-- The post-list seen set is the prior one plus the kept keys. -/
theorem firstWinsSeen_mem (key : α → String) (l : List α) : ∀ (seen : List String)
    (s : String),
    s ∈ firstWinsSeen key seen l ↔
      s ∈ seen ∨ ∃ q ∈ firstWinsOut key seen l, key q = s := by
  induction l with
  | nil => intro seen s; simp [firstWinsSeen, firstWinsOut]
  | cons x rest ih =>
    intro seen s
    by_cases h : key x ∈ seen
    · simp only [firstWinsSeen, firstWinsOut, if_pos h]
      exact ih seen s
    · simp only [firstWinsSeen, firstWinsOut, if_neg h]
      rw [ih (key x :: seen) s]
      constructor
      · rintro (hs | ⟨q, hq, rfl⟩)
        · rcases List.mem_cons.mp hs with rfl | hs
          · exact Or.inr ⟨x, List.mem_cons_self .., rfl⟩
          · exact Or.inl hs
        · exact Or.inr ⟨q, List.mem_cons_of_mem _ hq, rfl⟩
      · rintro (hs | ⟨q, hq, rfl⟩)
        · exact Or.inl (List.mem_cons_of_mem _ hs)
        · rcases List.mem_cons.mp hq with rfl | hq
          · exact Or.inl (List.mem_cons_self ..)
          · exact Or.inr ⟨q, hq, rfl⟩

/-- Kept elements have pairwise-distinct keys, none of them seen before. -/
theorem firstWinsOut_keys (key : α → String) (l : List α) : ∀ seen,
    (firstWinsOut key seen l).Pairwise (fun a b => key a ≠ key b) ∧
      ∀ q ∈ firstWinsOut key seen l, key q ∉ seen := by
  induction l with
  | nil => intro seen; simp [firstWinsOut]
  | cons x rest ih =>
    intro seen
    by_cases h : key x ∈ seen
    · simp only [firstWinsOut, if_pos h]
      exact ih seen
    · simp only [firstWinsOut, if_neg h]
      obtain ⟨hpw, hmem⟩ := ih (key x :: seen)
      refine ⟨List.Pairwise.cons ?_ hpw, ?_⟩
      · intro b hb he
        exact hmem b hb (he ▸ List.mem_cons_self ..)
      · intro q hq
        rcases List.mem_cons.mp hq with rfl | hq
        · exact h
        · exact fun hin => hmem q hq (List.mem_cons_of_mem _ hin)

/-- Nothing is kept exactly when every key was already seen. -/
theorem firstWinsOut_nil_iff (key : α → String) (l : List α) : ∀ seen,
    firstWinsOut key seen l = [] ↔ ∀ x ∈ l, key x ∈ seen := by
  induction l with
  | nil => intro seen; simp [firstWinsOut]
  | cons x rest ih =>
    intro seen
    by_cases h : key x ∈ seen
    · simp [firstWinsOut, if_pos h, ih seen, h]
    · simp [firstWinsOut, if_neg h, h]

/-- For an unseen key, the first kept element with that key is the first
input element with that key. -/
theorem firstWinsOut_find? (key : α → String) (l : List α) : ∀ (seen : List String)
    (k : String), k ∉ seen →
    (firstWinsOut key seen l).find? (fun q => key q == k)
      = l.find? (fun q => key q == k) := by
  induction l with
  | nil => intro seen k _; simp [firstWinsOut]
  | cons x rest ih =>
    intro seen k hk
    by_cases h : key x ∈ seen
    · have hne : ¬(key x == k) = true := by
        simp only [beq_iff_eq]
        intro he
        exact hk (he ▸ h)
      simp only [firstWinsOut, if_pos h]
      rw [@List.find?_cons_of_neg _ (fun q => key q == k) x rest hne]
      exact ih seen k hk
    · by_cases hxk : key x = k
      · simp only [firstWinsOut, if_neg h]
        rw [@List.find?_cons_of_pos _ (fun q => key q == k) x
            (firstWinsOut key (key x :: seen) rest) (by simp [hxk]),
          @List.find?_cons_of_pos _ (fun q => key q == k) x rest (by simp [hxk])]
      · have hk2 : k ∉ key x :: seen := by
          intro hin
          rcases List.mem_cons.mp hin with rfl | hin
          · exact hxk rfl
          · exact hk hin
        have hne2 : ¬((fun q => key q == k) x) = true := by simp [hxk]
        simp only [firstWinsOut, if_neg h]
        rw [@List.find?_cons_of_neg _ (fun q => key q == k) x
            (firstWinsOut key (key x :: seen) rest) hne2,
          @List.find?_cons_of_neg _ (fun q => key q == k) x rest hne2]
        exact ih (key x :: seen) k hk2

/-- The collected parts are a sublist of the discovery stream (order of
first appearance is preserved). -/
theorem collectParts_sublist (page : String → BuyPageResult) (fams : List String) :
    ∀ seen, (collectParts page fams seen).Sublist (discoveredParts page fams) := by
  induction fams with
  | nil => intro seen; simp [collectParts, discoveredParts]
  | cons slug fams ih =>
    intro seen
    cases hf : fetchPartsFromBuyPage (page slug) slug with
    | error e =>
      simp only [collectParts, hf, discoveredParts, List.flatMap_cons, List.nil_append]
      exact ih seen
    | ok l =>
      simp only [collectParts, hf, discoveredParts, List.flatMap_cons]
      exact List.Sublist.append (firstWinsOut_sublist _ _ _) (ih _)

/-- The collected parts have pairwise-distinct part numbers, none
already seen. -/
theorem collectParts_keys (page : String → BuyPageResult) (fams : List String) :
    ∀ seen, (collectParts page fams seen).Pairwise
        (fun p q => p.partNumber ≠ q.partNumber) ∧
      ∀ q ∈ collectParts page fams seen, q.partNumber ∉ seen := by
  induction fams with
  | nil => intro seen; simp [collectParts]
  | cons slug fams ih =>
    intro seen
    cases hf : fetchPartsFromBuyPage (page slug) slug with
    | error e =>
      simp only [collectParts, hf]
      exact ih seen
    | ok l =>
      simp only [collectParts, hf]
      obtain ⟨hpw1, hout⟩ := firstWinsOut_keys (fun p => p.partNumber) l seen
      obtain ⟨hpw2, hrest⟩ := ih (firstWinsSeen (fun p => p.partNumber) seen l)
      constructor
      · rw [List.pairwise_append]
        refine ⟨hpw1, hpw2, ?_⟩
        intro a ha b hb he
        exact hrest b hb ((firstWinsSeen_mem _ l seen _).mpr (Or.inr ⟨a, ha, he⟩))
      · intro q hq
        rcases List.mem_append.mp hq with hq | hq
        · exact hout q hq
        · exact fun hin =>
            hrest q hq ((firstWinsSeen_mem _ l seen _).mpr (Or.inl hin))

/-- The collection is empty exactly when every successfully fetched part
already had a seen part number. -/
theorem collectParts_nil_iff (page : String → BuyPageResult) (fams : List String) :
    ∀ seen, collectParts page fams seen = [] ↔
      ∀ slug ∈ fams, ∀ l, fetchPartsFromBuyPage (page slug) slug = .ok l →
        ∀ x ∈ l, x.partNumber ∈ seen := by
  induction fams with
  | nil => intro seen; simp [collectParts]
  | cons slug fams ih =>
    intro seen
    cases hf : fetchPartsFromBuyPage (page slug) slug with
    | error e =>
      simp only [collectParts, hf]
      rw [ih seen]
      constructor
      · intro hr slug2 hmem l hok
        rcases List.mem_cons.mp hmem with rfl | hmem
        · rw [hf] at hok; cases hok
        · exact hr slug2 hmem l hok
      · intro hr slug2 hmem l hok
        exact hr slug2 (List.mem_cons_of_mem _ hmem) l hok
    | ok l =>
      simp only [collectParts, hf, List.append_eq_nil]
      constructor
      · rintro ⟨hout, hrest⟩
        have hseen : ∀ x ∈ l, x.partNumber ∈ seen :=
          (firstWinsOut_nil_iff _ l seen).mp hout
        intro slug2 hmem l2 hok
        rcases List.mem_cons.mp hmem with rfl | hmem
        · rw [hf] at hok
          cases hok
          exact hseen
        · intro x hx
          have := (ih _).mp hrest slug2 hmem l2 hok x hx
          rcases (firstWinsSeen_mem _ l seen _).mp this with hs | ⟨q, hq, _⟩
          · exact hs
          · rw [hout] at hq
            cases hq
      · intro hr
        have hseen : ∀ x ∈ l, x.partNumber ∈ seen :=
          hr slug (List.mem_cons_self ..) l hf
        have hout : firstWinsOut (fun p => p.partNumber) seen l = [] :=
          (firstWinsOut_nil_iff _ l seen).mpr hseen
        refine ⟨hout, (ih _).mpr ?_⟩
        intro slug2 hmem l2 hok x hx
        exact (firstWinsSeen_mem _ l seen _).mpr
          (Or.inl (hr slug2 (List.mem_cons_of_mem _ hmem) l2 hok x hx))

/-- For an unseen part number, the collected element with that number is
the first discovered part carrying it. -/
theorem collectParts_find? (page : String → BuyPageResult) (fams : List String) :
    ∀ (seen : List String) (k : String), k ∉ seen →
      (collectParts page fams seen).find? (fun p => p.partNumber == k)
        = (discoveredParts page fams).find? (fun p => p.partNumber == k) := by
  induction fams with
  | nil => intro seen k _; simp [collectParts, discoveredParts]
  | cons slug fams ih =>
    intro seen k hk
    cases hf : fetchPartsFromBuyPage (page slug) slug with
    | error e =>
      simp only [collectParts, hf, discoveredParts, List.flatMap_cons, List.nil_append]
      exact ih seen k hk
    | ok l =>
      simp only [collectParts, hf, discoveredParts, List.flatMap_cons]
      rw [List.find?_append, List.find?_append,
        firstWinsOut_find? (fun p => p.partNumber) l seen k hk]
      cases hfl : l.find? (fun p => p.partNumber == k) with
      | some p => simp
      | none =>
        simp only [Option.none_or]
        have hk2 : k ∉ firstWinsSeen (fun p => p.partNumber) seen l := by
          intro hin
          rcases (firstWinsSeen_mem _ l seen _).mp hin with hs | ⟨q, hq, hqk⟩
          · exact hk hs
          · have hql : q ∈ l := (firstWinsOut_sublist _ l seen).subset hq
            have := List.find?_eq_none.mp hfl q hql
            simp [hqk] at this
        exact ih _ k hk2

/-- Merged stores are a sublist of the concatenated seed results. -/
theorem mergeStoresAux_sublist (arr : List (List RawStore)) :
    ∀ seen, (mergeStoresAux seen arr).Sublist arr.flatten := by
  induction arr with
  | nil => intro seen; simp [mergeStoresAux]
  | cons l rest ih =>
    intro seen
    simp only [mergeStoresAux, List.flatten_cons]
    exact List.Sublist.append (firstWinsOut_sublist _ _ _) (ih _)

/-- Merged stores have pairwise-distinct merge keys, none already seen. -/
theorem mergeStoresAux_keys (arr : List (List RawStore)) :
    ∀ seen, (mergeStoresAux seen arr).Pairwise
        (fun a b => storeMergeKey a ≠ storeMergeKey b) ∧
      ∀ q ∈ mergeStoresAux seen arr, storeMergeKey q ∉ seen := by
  induction arr with
  | nil => intro seen; simp [mergeStoresAux]
  | cons l rest ih =>
    intro seen
    simp only [mergeStoresAux]
    obtain ⟨hpw1, hout⟩ := firstWinsOut_keys storeMergeKey l seen
    obtain ⟨hpw2, hrest⟩ := ih (firstWinsSeen storeMergeKey seen l)
    constructor
    · rw [List.pairwise_append]
      refine ⟨hpw1, hpw2, ?_⟩
      intro a ha b hb he
      exact hrest b hb ((firstWinsSeen_mem _ l seen _).mpr (Or.inr ⟨a, ha, he⟩))
    · intro q hq
      rcases List.mem_append.mp hq with hq | hq
      · exact hout q hq
      · exact fun hin => hrest q hq ((firstWinsSeen_mem _ l seen _).mpr (Or.inl hin))

/-- For an unseen merge key, the merged store with that key is the first
store carrying it across the seed results in order. -/
theorem mergeStoresAux_find? (arr : List (List RawStore)) :
    ∀ (seen : List String) (k : String), k ∉ seen →
      (mergeStoresAux seen arr).find? (fun s => storeMergeKey s == k)
        = arr.flatten.find? (fun s => storeMergeKey s == k) := by
  induction arr with
  | nil => intro seen k _; simp [mergeStoresAux]
  | cons l rest ih =>
    intro seen k hk
    simp only [mergeStoresAux, List.flatten_cons]
    rw [List.find?_append, List.find?_append, firstWinsOut_find? storeMergeKey l seen k hk]
    cases hfl : l.find? (fun s => storeMergeKey s == k) with
    | some p => simp
    | none =>
      simp only [Option.none_or]
      have hk2 : k ∉ firstWinsSeen storeMergeKey seen l := by
        intro hin
        rcases (firstWinsSeen_mem _ l seen _).mp hin with hs | ⟨q, hq, hqk⟩
        · exact hk hs
        · have hql : q ∈ l := (firstWinsOut_sublist _ l seen).subset hq
          have := List.find?_eq_none.mp hfl q hql
          simp [hqk] at this
      exact ih _ k hk2

/-- A successful discovery returns exactly the accumulated part list. -/
theorem fetchParts_ok_eq (page : String → BuyPageResult) (families : List String)
    (parts : List Part)
    (h : fetchIphonePartsForFamilies page families = .ok parts) :
    parts = collectParts page families [] := by
  unfold fetchIphonePartsForFamilies at h
  by_cases he : (collectParts page families []).isEmpty
  · simp [he] at h
  · simp only [he, if_neg, Bool.false_eq_true, if_false] at h
    exact (Except.ok.inj h).symm

/-- A successful build's `models` and `stores` fields in terms of the
discovery and merge pipelines. -/
theorem buildPayload_ok_fields (conf : Config) (page : String → BuyPageResult)
    (ful : List String → String → FulfillResult) (nowISO : String) (nowTW : TaipeiNow)
    (snap : Snapshot)
    (h : buildAvailabilityPayload conf page ful nowISO nowTW = .ok snap) :
    snap.models = collectParts page conf.FAMILIES [] ∧
    snap.stores = (mergeStores (storesListsOf conf page ful)).map
      (fun s => { storeNumber := s.storeNumber, storeName := s.storeName, city := s.city }) := by
  unfold buildAvailabilityPayload at h
  cases hf : fetchIphonePartsForFamilies page conf.FAMILIES with
  | error e => rw [hf] at h; cases h
  | ok parts =>
    rw [hf] at h
    have hp : parts = collectParts page conf.FAMILIES [] := fetchParts_ok_eq _ _ _ hf
    have h2 := Except.ok.inj h
    subst h2
    exact ⟨hp.symm ▸ rfl, by rw [storesListsOf, ← hp]⟩

/-- C5: in every snapshot built by `buildAvailabilityPayload`, no two
parts of the merged part list share a `partNumber` — the part kept for a
number is the first discovered part carrying it, in first-seen family
order (the list is a sublist of the discovery stream) — and no two
stores of the merged store list share a merge key (`storeNumber`, or the
`country:city:storeName` composite when it is absent) — the store kept
for a key is the first store carrying it across the seeds.  The
snapshot's `stores` field is the projection of that merged list. -/
theorem buildPayload_unique_keys (conf : Config) (page : String → BuyPageResult)
    (ful : List String → String → FulfillResult) (nowISO : String) (nowTW : TaipeiNow)
    (snap : Snapshot)
    (h : buildAvailabilityPayload conf page ful nowISO nowTW = .ok snap) :
    snap.models.Pairwise (fun p q => p.partNumber ≠ q.partNumber)
    ∧ snap.models.Sublist (discoveredParts page conf.FAMILIES)
    ∧ (∀ k : String, snap.models.find? (fun p => p.partNumber == k)
        = (discoveredParts page conf.FAMILIES).find? (fun p => p.partNumber == k))
    ∧ (mergeStores (storesListsOf conf page ful)).Pairwise
        (fun a b => storeMergeKey a ≠ storeMergeKey b)
    ∧ (mergeStores (storesListsOf conf page ful)).Sublist
        (storesListsOf conf page ful).flatten
    ∧ (∀ k : String, (mergeStores (storesListsOf conf page ful)).find?
          (fun s => storeMergeKey s == k)
        = (storesListsOf conf page ful).flatten.find? (fun s => storeMergeKey s == k))
    ∧ snap.stores = (mergeStores (storesListsOf conf page ful)).map
        (fun s => { storeNumber := s.storeNumber, storeName := s.storeName, city := s.city }) := by
  obtain ⟨hm, hs⟩ := buildPayload_ok_fields conf page ful nowISO nowTW snap h
  refine ⟨?ga, ?gb, ?gc, ?gd, ?ge, ?gf, hs⟩
  · rw [hm]; exact (collectParts_keys page conf.FAMILIES []).1
  · rw [hm]; exact collectParts_sublist page conf.FAMILIES []
  · intro k
    rw [hm]
    exact collectParts_find? page conf.FAMILIES [] k (List.not_mem_nil k)
  · exact (mergeStoresAux_keys (storesListsOf conf page ful) []).1
  · exact mergeStoresAux_sublist (storesListsOf conf page ful) []
  · intro k
    exact mergeStoresAux_find? (storesListsOf conf page ful) [] k (List.not_mem_nil k)

/-- C6: discovery throws if and only if zero parts were discovered
across all families (every family either failed or contributed an empty
list); each single-family failure mode (HTTP error, missing metrics
block, unparseable metrics JSON) is a per-family error the loop
swallows, and every part of a successful family still appears (by part
number) in the merged result. -/
theorem fetchParts_error_iff (page : String → BuyPageResult) (families : List String) :
    ((∃ e, fetchIphonePartsForFamilies page families = .error e) ↔
      ∀ slug ∈ families, ∀ l, fetchPartsFromBuyPage (page slug) slug = .ok l → l = [])
    ∧ (∀ slug ∈ families, ∀ l, fetchPartsFromBuyPage (page slug) slug = .ok l →
        ∀ p ∈ l, ∃ parts q, fetchIphonePartsForFamilies page families = .ok parts ∧
          q ∈ parts ∧ q.partNumber = p.partNumber)
    ∧ (∀ slug status, ∃ e, fetchPartsFromBuyPage (.httpError status) slug = .error e)
    ∧ (∀ slug, ∃ e, fetchPartsFromBuyPage .noMetricsTag slug = .error e)
    ∧ (∀ slug, ∃ e, fetchPartsFromBuyPage .metricsParseError slug = .error e) := by
  refine ⟨?_, ?_, fun slug status => ⟨_, rfl⟩, fun slug => ⟨_, rfl⟩, fun slug => ⟨_, rfl⟩⟩
  · have hnil := collectParts_nil_iff page families []
    constructor
    · rintro ⟨e, he⟩
      unfold fetchIphonePartsForFamilies at he
      by_cases hc : (collectParts page families []).isEmpty
      · have hceq : collectParts page families [] = [] := by
          rwa [List.isEmpty_iff] at hc
        intro slug hmem l hok
        have := (hnil).mp hceq slug hmem l hok
        exact List.eq_nil_iff_forall_not_mem.mpr fun x hx => by
          have hfalse := this x hx
          simp at hfalse
      · simp [hc] at he
    · intro hr
      have hceq : collectParts page families [] = [] := by
        apply (hnil).mpr
        intro slug hmem l hok x hx
        rw [hr slug hmem l hok] at hx
        cases hx
      refine ⟨"no iPhone 17 family parts discovered", ?_⟩
      unfold fetchIphonePartsForFamilies
      simp [hceq]
  · intro slug hmem l hok p hp
    have hpd : p ∈ discoveredParts page families := by
      unfold discoveredParts
      rw [List.mem_flatMap]
      exact ⟨slug, hmem, by rw [hok]; exact hp⟩
    have hfind : (discoveredParts page families).find?
        (fun q => q.partNumber == p.partNumber) ≠ none := by
      intro hnone
      have := List.find?_eq_none.mp hnone p hpd
      simp at this
    obtain ⟨q, hq⟩ : ∃ q, (discoveredParts page families).find?
        (fun q => q.partNumber == p.partNumber) = some q := by
      cases hfq : (discoveredParts page families).find?
          (fun q => q.partNumber == p.partNumber) with
      | none => exact absurd hfq hfind
      | some q => exact ⟨q, rfl⟩
    have hcfind := collectParts_find? page families [] p.partNumber (List.not_mem_nil _)
    rw [hq] at hcfind
    have hqc : q ∈ collectParts page families [] := List.mem_of_find?_eq_some hcfind
    have hqk : q.partNumber = p.partNumber := by
      have := List.find?_some hcfind
      simpa using this
    have hne : ¬(collectParts page families []).isEmpty := by
      rw [List.isEmpty_iff]
      intro hnil2
      rw [hnil2] at hqc
      cases hqc
    refine ⟨collectParts page families [], q, ?_, hqc, hqk⟩
    unfold fetchIphonePartsForFamilies
    simp [hne]

/-- Witness for C5: the concrete two-family build succeeds and its part
and store lists satisfy the uniqueness and first-wins properties. -/
theorem buildPayload_unique_keys_witness :
    buildAvailabilityPayload exConf exPage exFul "t0" exNow = .ok exSnap
    ∧ (exSnap.models.Pairwise (fun p q => p.partNumber ≠ q.partNumber)
      ∧ exSnap.models.Sublist (discoveredParts exPage exConf.FAMILIES)
      ∧ (∀ k : String, exSnap.models.find? (fun p => p.partNumber == k)
          = (discoveredParts exPage exConf.FAMILIES).find? (fun p => p.partNumber == k))
      ∧ (mergeStores (storesListsOf exConf exPage exFul)).Pairwise
          (fun a b => storeMergeKey a ≠ storeMergeKey b)
      ∧ (mergeStores (storesListsOf exConf exPage exFul)).Sublist
          (storesListsOf exConf exPage exFul).flatten
      ∧ (∀ k : String, (mergeStores (storesListsOf exConf exPage exFul)).find?
            (fun s => storeMergeKey s == k)
          = (storesListsOf exConf exPage exFul).flatten.find? (fun s => storeMergeKey s == k))
      ∧ exSnap.stores = (mergeStores (storesListsOf exConf exPage exFul)).map
          (fun s => { storeNumber := s.storeNumber, storeName := s.storeName, city := s.city })) :=
  ⟨rfl, buildPayload_unique_keys exConf exPage exFul "t0" exNow exSnap rfl⟩

/-- Witness for C6: family `f2` fetches `[exPartB, exPartC]`, `exPartB`
duplicates `P1`, yet `P1` appears in the merged result. -/
theorem fetchParts_error_iff_witness :
    ("f2" ∈ exConf.FAMILIES
    ∧ fetchPartsFromBuyPage (exPage "f2") "f2" = .ok exPartsF2
    ∧ exPartB ∈ exPartsF2)
    ∧ (∃ parts q, fetchIphonePartsForFamilies exPage exConf.FAMILIES = .ok parts ∧
        q ∈ parts ∧ q.partNumber = exPartB.partNumber) :=
  ⟨⟨by decide, rfl, by decide⟩,
    (fetchParts_error_iff exPage exConf.FAMILIES).2.1 "f2" (by decide) exPartsF2 rfl
      exPartB (by decide)⟩

/-! ## The cache coordinator -/

/-- C1: on a non-forced request with an edge-cache miss and a KV
snapshot present, the handler returns the KV snapshot immediately tagged
`kv`, leaves the synchronous state untouched, and registers (in this
order) a background rebuild task and an opportunistic seed of the edge
cache with that same response.  Running the seed task stores the
returned response under the canonical key; running the rebuild task
after a successful rebuild persists the rebuilt snapshot to the KV cell
and overwrites the edge entry with the rebuilt copy tagged `fresh`. -/
theorem handleApi_kv_hit (conf : Config) (page : String → BuyPageResult)
    (ful : List String → String → FulfillResult) (nowISO : String) (nowTW : TaipeiNow)
    (url : Url) (w : World) (snap : Snapshot)
    (hforce : isForceRequest url = false)
    (hedge : edgeMatch w.edge (availabilityCacheKey url) = none)
    (hkv : w.kvLatest = some snap) :
    handleApiAvailability conf page ful nowISO nowTW url w
      = .ok (makeJSON ⟨"kv", snap⟩ (computeTtls ⟨"kv", snap⟩), w,
          [.rebuildAndCache (availabilityCacheKey url) false,
           .seedEdge (availabilityCacheKey url)
             (makeJSON ⟨"kv", snap⟩ (computeTtls ⟨"kv", snap⟩))])
    ∧ (makeJSON ⟨"kv", snap⟩ (computeTtls ⟨"kv", snap⟩)).body.source = "kv"
    ∧ (makeJSON ⟨"kv", snap⟩ (computeTtls ⟨"kv", snap⟩)).body.payload = snap
    ∧ runBgTask conf page ful nowISO nowTW w
        (.seedEdge (availabilityCacheKey url)
          (makeJSON ⟨"kv", snap⟩ (computeTtls ⟨"kv", snap⟩)))
      = { w with edge := (edgePut w.edge (availabilityCacheKey url)
            (makeJSON ⟨"kv", snap⟩ (computeTtls ⟨"kv", snap⟩))) }
    ∧ (∀ p, buildAvailabilityPayload conf page ful nowISO nowTW = .ok p →
        runBgTask conf page ful nowISO nowTW w
            (.rebuildAndCache (availabilityCacheKey url) false)
          = { edge := (edgePut w.edge (availabilityCacheKey url)
                (makeJSON ⟨"fresh", p⟩ (computeTtls ⟨"fresh", p⟩)))
            , kvLatest := some p }) := by
  refine ⟨?_, rfl, rfl, by simp [runBgTask], ?_⟩
  · simp [handleApiAvailability, hforce, hedge, hkv]
  · intro p hb
    simp [runBgTask, refreshAvailabilityKV, hb]

/-- Witness for C1, on the concrete KV-holding world. -/
theorem handleApi_kv_hit_witness :
    (isForceRequest exUrl = false
    ∧ edgeMatch exWorldKV.edge (availabilityCacheKey exUrl) = none
    ∧ exWorldKV.kvLatest = some exSnap)
    ∧ handleApiAvailability exConf exPage exFul "t1" exNow exUrl exWorldKV
      = .ok (makeJSON ⟨"kv", exSnap⟩ (computeTtls ⟨"kv", exSnap⟩), exWorldKV,
          [.rebuildAndCache (availabilityCacheKey exUrl) false,
           .seedEdge (availabilityCacheKey exUrl)
             (makeJSON ⟨"kv", exSnap⟩ (computeTtls ⟨"kv", exSnap⟩))]) :=
  ⟨⟨rfl, rfl, rfl⟩,
    (handleApi_kv_hit exConf exPage exFul "t1" exNow exUrl exWorldKV exSnap rfl rfl rfl).1⟩

/-- C2: on a forced request whose synchronous rebuild succeeds, the
handler persists the rebuilt snapshot to the KV cell before responding,
returns it immediately tagged `fresh`, and registers the edge-cache
store of that response under the canonical key — which is the request
URL with the `force`/`refresh` parameters stripped — regardless of the
prior edge/KV cache state. -/
theorem handleApi_forced (conf : Config) (page : String → BuyPageResult)
    (ful : List String → String → FulfillResult) (nowISO : String) (nowTW : TaipeiNow)
    (url : Url) (w : World) (p : Snapshot)
    (hforce : isForceRequest url = true)
    (hbuild : buildAvailabilityPayload conf page ful nowISO nowTW = .ok p) :
    handleApiAvailability conf page ful nowISO nowTW url w
      = .ok (makeJSON ⟨"fresh", p⟩ (computeTtls ⟨"fresh", p⟩),
          { w with kvLatest := some p },
          [.seedEdge (availabilityCacheKey url)
            (makeJSON ⟨"fresh", p⟩ (computeTtls ⟨"fresh", p⟩))])
    ∧ (makeJSON ⟨"fresh", p⟩ (computeTtls ⟨"fresh", p⟩)).body.source = "fresh"
    ∧ (makeJSON ⟨"fresh", p⟩ (computeTtls ⟨"fresh", p⟩)).body.payload = p
    ∧ runBgTask conf page ful nowISO nowTW { w with kvLatest := some p }
        (.seedEdge (availabilityCacheKey url)
          (makeJSON ⟨"fresh", p⟩ (computeTtls ⟨"fresh", p⟩)))
      = { edge := (edgePut w.edge (availabilityCacheKey url)
            (makeJSON ⟨"fresh", p⟩ (computeTtls ⟨"fresh", p⟩)))
        , kvLatest := some p }
    ∧ (availabilityCacheKey url).base = url.base
    ∧ (availabilityCacheKey url).query
        = url.query.filter (fun e => e.1 != "force" && e.1 != "refresh") := by
  refine ⟨?_, rfl, rfl, by simp [runBgTask], rfl, rfl⟩
  simp [handleApiAvailability, hforce, refreshAvailabilityKV, hbuild]

/-- Witness for C2, on the concrete forced URL with a non-empty prior
edge cache. -/
theorem handleApi_forced_witness :
    (isForceRequest exUrlForce = true
    ∧ buildAvailabilityPayload exConf exPage exFul "t0" exNow = .ok exSnap)
    ∧ handleApiAvailability exConf exPage exFul "t0" exNow exUrlForce exWorldEdge
      = .ok (makeJSON ⟨"fresh", exSnap⟩ (computeTtls ⟨"fresh", exSnap⟩),
          { exWorldEdge with kvLatest := some exSnap },
          [.seedEdge (availabilityCacheKey exUrlForce)
            (makeJSON ⟨"fresh", exSnap⟩ (computeTtls ⟨"fresh", exSnap⟩))]) :=
  ⟨⟨rfl, rfl⟩,
    (handleApi_forced exConf exPage exFul "t0" exNow exUrlForce exWorldEdge exSnap
      rfl rfl).1⟩

/-- C3: on a non-forced request with both caches empty, the handler
immediately returns the placeholder payload — empty models, stores and
availability, the current timestamp, source `warmup` — while registering
the background rebuild task (the cold-start variant), and the entire
synchronous result is independent of the rebuild oracles. -/
theorem handleApi_cold (conf : Config) (page : String → BuyPageResult)
    (ful : List String → String → FulfillResult) (nowISO : String) (nowTW : TaipeiNow)
    (url : Url) (w : World)
    (hforce : isForceRequest url = false)
    (hedge : edgeMatch w.edge (availabilityCacheKey url) = none)
    (hkv : w.kvLatest = none) :
    handleApiAvailability conf page ful nowISO nowTW url w
      = .ok (makeJSON
          ⟨"warmup", { generatedAt := nowISO, models := [], stores := [], availability := [] }⟩
          (computeTtls
            ⟨"warmup", { generatedAt := nowISO, models := [], stores := [], availability := [] }⟩),
          w, [.rebuildAndCache (availabilityCacheKey url) true])
    ∧ (∀ (page2 : String → BuyPageResult) (ful2 : List String → String → FulfillResult),
        handleApiAvailability conf page2 ful2 nowISO nowTW url w
          = handleApiAvailability conf page ful nowISO nowTW url w) := by
  have hmain : ∀ (pg : String → BuyPageResult) (fl : List String → String → FulfillResult),
      handleApiAvailability conf pg fl nowISO nowTW url w
        = .ok (makeJSON
            ⟨"warmup", { generatedAt := nowISO, models := [], stores := [], availability := [] }⟩
            (computeTtls
              ⟨"warmup", { generatedAt := nowISO, models := [], stores := [], availability := [] }⟩),
            w, [.rebuildAndCache (availabilityCacheKey url) true]) := by
    intro pg fl
    simp [handleApiAvailability, hforce, hedge, hkv]
  exact ⟨hmain page ful, fun page2 ful2 => (hmain page2 ful2).trans (hmain page ful).symm⟩

/-- Witness for C3, on the empty world. -/
theorem handleApi_cold_witness :
    (isForceRequest exUrl = false
    ∧ edgeMatch exWorld0.edge (availabilityCacheKey exUrl) = none
    ∧ exWorld0.kvLatest = none)
    ∧ handleApiAvailability exConf exPage exFul "t2" exNow exUrl exWorld0
      = .ok (makeJSON
          ⟨"warmup", { generatedAt := "t2", models := [], stores := [], availability := [] }⟩
          (computeTtls
            ⟨"warmup", { generatedAt := "t2", models := [], stores := [], availability := [] }⟩),
          exWorld0, [.rebuildAndCache (availabilityCacheKey exUrl) true]) :=
  ⟨⟨rfl, rfl, rfl⟩,
    (handleApi_cold exConf exPage exFul "t2" exNow exUrl exWorld0 rfl rfl rfl).1⟩

/-- C4: a background rebuild task whose rebuild throws is swallowed
entirely: the world — both the `availability.latest` KV cell and the
edge cache — is left exactly as it was. -/
theorem bgRebuild_failure_swallowed (conf : Config) (page : String → BuyPageResult)
    (ful : List String → String → FulfillResult) (nowISO : String) (nowTW : TaipeiNow)
    (w : World) (key : Url) (warm : Bool) (e : String)
    (hbuild : buildAvailabilityPayload conf page ful nowISO nowTW = .error e) :
    runBgTask conf page ful nowISO nowTW w (.rebuildAndCache key warm) = w := by
  simp [runBgTask, refreshAvailabilityKV, hbuild]

/-- Witness for C4: with every family fetch failing, the rebuild throws
and the task leaves the KV-holding world untouched. -/
theorem bgRebuild_failure_swallowed_witness :
    buildAvailabilityPayload exConf exPageFail exFul "t3" exNow
      = .error "no iPhone 17 family parts discovered"
    ∧ runBgTask exConf exPageFail exFul "t3" exNow exWorldKV
        (.rebuildAndCache (availabilityCacheKey exUrl) false) = exWorldKV :=
  ⟨rfl, bgRebuild_failure_swallowed exConf exPageFail exFul "t3" exNow exWorldKV
    (availabilityCacheKey exUrl) false "no iPhone 17 family parts discovered" rfl⟩

/-! ## Cache lifetimes (C8) -/

/-- Counterexample to C8 as stated: between a payload with a buyable
record and one with none, `max-age` (the browser lifetime) is 0 in both
responses, so it is not strictly shorter — only `s-maxage` and
`stale-while-revalidate` shrink. -/
theorem computeTtls_not_all_shorter :
    hasAvailability exPayloadAvail.payload = true
    ∧ hasAvailability exPayloadNone.payload = false
    ∧ ¬((makeJSON exPayloadAvail (computeTtls exPayloadAvail)).browserMaxAge
          < (makeJSON exPayloadNone (computeTtls exPayloadNone)).browserMaxAge
        ∧ (makeJSON exPayloadAvail (computeTtls exPayloadAvail)).edgeMaxAge
          < (makeJSON exPayloadNone (computeTtls exPayloadNone)).edgeMaxAge
        ∧ (makeJSON exPayloadAvail (computeTtls exPayloadAvail)).swr
          < (makeJSON exPayloadNone (computeTtls exPayloadNone)).swr) := by
  refine ⟨by decide, by decide, ?_⟩
  rintro ⟨hb, _, _⟩
  simp [makeJSON, computeTtls] at hb

/-- C8 (amended): in responses built from payloads via `computeTtls`,
the edge lifetime (`s-maxage`) and the `stale-while-revalidate` window
are strictly shorter when the payload has at least one buyable or
`available` record than when it has none, while the browser `max-age`
is 0 in both cases. -/
theorem computeTtls_shorter_when_available (p q : TaggedPayload)
    (hp : hasAvailability p.payload = true) (hq : hasAvailability q.payload = false) :
    (makeJSON p (computeTtls p)).edgeMaxAge < (makeJSON q (computeTtls q)).edgeMaxAge
    ∧ (makeJSON p (computeTtls p)).swr < (makeJSON q (computeTtls q)).swr
    ∧ (makeJSON p (computeTtls p)).browserMaxAge
        = (makeJSON q (computeTtls q)).browserMaxAge := by
  simp [makeJSON, computeTtls, hp, hq]

/-- Witness for the amended C8 at the concrete payloads. -/
theorem computeTtls_shorter_witness :
    (hasAvailability exPayloadAvail.payload = true
    ∧ hasAvailability exPayloadNone.payload = false)
    ∧ ((makeJSON exPayloadAvail (computeTtls exPayloadAvail)).edgeMaxAge
        < (makeJSON exPayloadNone (computeTtls exPayloadNone)).edgeMaxAge
      ∧ (makeJSON exPayloadAvail (computeTtls exPayloadAvail)).swr
        < (makeJSON exPayloadNone (computeTtls exPayloadNone)).swr
      ∧ (makeJSON exPayloadAvail (computeTtls exPayloadAvail)).browserMaxAge
        = (makeJSON exPayloadNone (computeTtls exPayloadNone)).browserMaxAge) :=
  ⟨⟨by decide, by decide⟩,
    computeTtls_shorter_when_available exPayloadAvail exPayloadNone (by decide) (by decide)⟩

/-! ## Store hours (C9) -/

/-- C9: for a store whose hours rows mark it open `10:00 - 21:00` on the
current local weekday (any of the seven `zh-TW` day names, the clock
being the formatted `Asia/Taipei` time), `computeOpenNow` at 15:00 local
time yields `isOpen = true` and at 22:00 yields `isOpen = false`. -/
theorem computeOpenNow_business_hours :
    ∀ wd : Fin 7,
      (computeOpenNow { weekday := zhDays.getD wd.val "", minutes := 900 }
        [{ storeDays := some (zhDays.getD wd.val ""), days := none
         , storeTimings := some "10:00 - 21:00", timings := none }]).isOpen = true
      ∧ (computeOpenNow { weekday := zhDays.getD wd.val "", minutes := 1320 }
        [{ storeDays := some (zhDays.getD wd.val ""), days := none
         , storeTimings := some "10:00 - 21:00", timings := none }]).isOpen = false := by
  decide

/-! ## The force flag (C10) -/

/-- Counterexample to C10 as stated: the query `force=0&force=1` carries
a `force` parameter whose value is exactly `1`, yet the handler takes
the normal cached-read path (it returns the stored edge response),
because `URLSearchParams.get` reads only the first `force` value, `0`. -/
theorem isForce_counterexample :
    ("force", "1") ∈ exUrlDup.query
    ∧ isForceRequest exUrlDup = false
    ∧ ¬(isForceRequest exUrlDup = true ↔
        (("force", "1") ∈ exUrlDup.query ∨ ("refresh", "1") ∈ exUrlDup.query))
    ∧ handleApiAvailability exConf exPage exFul "t0" exNow exUrlDup exWorldEdge
        = .ok (exEdgeRes, exWorldEdge, []) := by
  refine ⟨by decide, rfl, by decide, rfl⟩

/-- C10 (amended): the handler takes the forced-refresh path iff the
first `force` value or the first `refresh` value in the query is exactly
the string `1` (`URLSearchParams.get` semantics); otherwise — including
any other value for those parameters, and duplicate parameters whose
first value differs from `1` — the request is a normal cached read, e.g.
an edge-cache hit is returned as-is. -/
theorem isForce_first_value (url : Url) :
    (isForceRequest url = true ↔
      searchParamsGet url.query "force" = some "1"
      ∨ searchParamsGet url.query "refresh" = some "1")
    ∧ (∀ (conf : Config) (page : String → BuyPageResult)
        (ful : List String → String → FulfillResult) (nowISO : String) (nowTW : TaipeiNow)
        (w : World) (res : Response),
        isForceRequest url = false →
        edgeMatch w.edge (availabilityCacheKey url) = some res →
        handleApiAvailability conf page ful nowISO nowTW url w = .ok (res, w, [])) := by
  constructor
  · simp [isForceRequest]
  · intro conf page ful nowISO nowTW w res hforce hedge
    simp [handleApiAvailability, hforce, hedge]

/-- Witness for the amended C10: `force=1` is forced; a plain URL with
an edge hit is served the cached response. -/
theorem isForce_first_value_witness :
    (isForceRequest exUrlForce = true ↔
      searchParamsGet exUrlForce.query "force" = some "1"
      ∨ searchParamsGet exUrlForce.query "refresh" = some "1")
    ∧ (isForceRequest exUrl = false
      ∧ edgeMatch exWorldEdge.edge (availabilityCacheKey exUrl) = some exEdgeRes
      ∧ handleApiAvailability exConf exPage exFul "t0" exNow exUrl exWorldEdge
          = .ok (exEdgeRes, exWorldEdge, [])) :=
  ⟨(isForce_first_value exUrlForce).1,
    rfl, rfl,
    (isForce_first_value exUrl).2 exConf exPage exFul "t0" exNow exWorldEdge exEdgeRes
      rfl rfl⟩

end Worker
